import Mathlib

/-!
# Stake-pool instruction builders

A shallow embedding of the instruction builders of the stake-pool bindings
(`SetManager.go`, `SetStaker.go`, `SetFee.go`, `UpdateValidatorListBalance.go`)
and the properties of their validation, construction and (de)serialisation glue.

Conventions of the embedding:

* a Go pointer that may be nil is an `Option`; a slice is a `List`;
* a builder method with a pointer receiver that returns its receiver becomes a
  function from the old builder value to the new one;
* Go code that can hit a run-time fault (index out of range, nil dereference)
  returns an `Outcome`;
* an `error` result is an `Option Error` (`none` is the nil error).
-/

set_option linter.dupNamespace false

namespace StakePool

/-! ## Data model -/

/-- One byte. -/
abbrev Byte := Fin 256

/-- Outcome of a Go call that may stop with a run-time fault
(index out of range, nil pointer dereference) instead of returning. -/
inductive Outcome (α : Type) where
  | returned (value : α)
  | fault
deriving DecidableEq, Repr

/-- Sequencing of calls: a fault stops the chain. -/
def Outcome.bind {α β : Type} (x : Outcome α) (f : α → Outcome β) : Outcome β :=
  match x with
  | .returned a => f a
  | .fault => .fault

/-- The key type `ag_solanago.PublicKey`, a 32-byte array. -/
structure PublicKey where
  bytes : List Byte
  size_eq : bytes.length = 32
deriving DecidableEq, Repr

/-- The key whose 32 bytes all equal `b` (used for concrete inputs). -/
def PublicKey.ofByte (b : Byte) : PublicKey := ⟨List.replicate 32 b, by simp⟩

/-- The account reference `ag_solanago.AccountMeta`: a key and two capability flags. -/
structure AccountMeta where
  PublicKey : PublicKey
  IsWritable : Bool
  IsSigner : Bool
deriving DecidableEq, Repr

/-- Modelled from the spec: the constructor `ag_solanago.Meta` is not among the
sources. Per the data model an account reference is "a public-key identifier plus
two boolean capability flags"; a new reference carries the key and neither flag. -/
def Meta (pubKey : PublicKey) : AccountMeta :=
  { PublicKey := pubKey, IsWritable := false, IsSigner := false }

/-- Modelled from the spec: `AccountMeta.WRITE` is not among the sources; it marks
the reference writable ("stake pool" slot is always writable) and keeps the rest. -/
def AccountMeta.WRITE (m : AccountMeta) : AccountMeta := { m with IsWritable := true }

/-- Modelled from the spec: `AccountMeta.SIGNER` is not among the sources; it marks
the reference a signer ("manager" slot is always a signer) and keeps the rest. -/
def AccountMeta.SIGNER (m : AccountMeta) : AccountMeta := { m with IsSigner := true }

/-- The slice type `ag_solanago.AccountMetaSlice`, a slice of possibly-nil pointers. -/
abbrev AccountMetaSlice := List (Option AccountMeta)

/-- The allocation `make(ag_solanago.AccountMetaSlice, n)`: `n` nil slots. -/
def AccountMetaSlice.make (n : Nat) : AccountMetaSlice := List.replicate n none

/-- The indexed assignment `slice[i] = v`: faults when `i` is out of range. -/
def AccountMetaSlice.assign (slice : AccountMetaSlice) (i : Nat) (v : AccountMeta) :
    Outcome AccountMetaSlice :=
  if i < slice.length then .returned (slice.set i (some v)) else .fault

/-- The errors the builders create, one constructor per message format. -/
inductive Error where
  /-- The message `ins.AccountMetaSlice[%v] is not set`. -/
  | insAccountMetaSliceNotSet (accIndex : Nat)
  /-- The message `accounts[%v] is not set`. -/
  | accountsNotSet (i : Nat)
  /-- The message `fee is not set`. -/
  | feeNotSet
  /-- The message `Args parameter is not set`. -/
  | argsNotSet
  /-- The message `accounts.Manager should be a signer`. -/
  | managerShouldBeSigner
  /-- An error handed back by the external encoder or decoder. -/
  | codec (detail : String)
deriving DecidableEq, Repr

/-- The text of an error. -/
def Error.message : Error → String
  | .insAccountMetaSliceNotSet accIndex =>
      "ins.AccountMetaSlice[" ++ toString accIndex ++ "] is not set"
  | .accountsNotSet i => "accounts[" ++ toString i ++ "] is not set"
  | .feeNotSet => "fee is not set"
  | .argsNotSet => "Args parameter is not set"
  | .managerShouldBeSigner => "accounts.Manager should be a signer"
  | .codec detail => detail

/-- The loop `for i, acc := range slice { if acc == nil { return mk(i) } }; return nil`,
started at index `i` on the rest of the slice. -/
def rangeNilCheck (mk : Nat → Error) : Nat → AccountMetaSlice → Option Error
  | _, [] => none
  | i, acc :: rest =>
      match acc with
      | none => some (mk i)
      | some _ => rangeNilCheck mk (i + 1) rest

/-- The type discriminant `ag_binary.TypeID` of an instruction, as built from a `uint8`. -/
structure TypeID where
  Uint8 : Nat
deriving DecidableEq, Repr

/-- The conversion `ag_binary.TypeIDFromUint8`. -/
def TypeIDFromUint8 (v : Nat) : TypeID := ⟨v⟩

/-- The instruction type codes `Instruction_*`. They are declared outside the
sources at hand, so the builders take them as a parameter. -/
structure InstructionCodes where
  Instruction_SetManager : Nat
  Instruction_SetStaker : Nat
  Instruction_SetFee : Nat
  Instruction_UpdateValidatorListBalance : Nat
deriving DecidableEq, Repr

/-- The built `Instruction`: a `BaseVariant` holding the type discriminant and the
builder it wraps (`Impl`, whose dynamic type is the variant). -/
structure Instruction (Variant : Type) where
  TypeID : TypeID
  Impl : Variant
deriving DecidableEq, Repr

/-! ## SetManager -/

/-- The builder `SetManager`.
Slots: `[0] = [WRITE] stakePool`, `[1] = [SIGNER] manager`,
`[2] = [SIGNER] newManager`, `[3] = [] newManagerFeeAccount`. -/
structure SetManager where
  AccountMetaSlice : AccountMetaSlice
deriving DecidableEq, Repr

def NewSetManagerInstructionBuilder : SetManager :=
  { AccountMetaSlice := AccountMetaSlice.make 4 }

def SetManager.SetStakePool (inst : SetManager) (pool : PublicKey) : Outcome SetManager :=
  (inst.AccountMetaSlice.assign 0 (Meta pool).WRITE).bind fun s =>
    .returned { inst with AccountMetaSlice := s }

def SetManager.SetManager (inst : SetManager) (manager : PublicKey) : Outcome SetManager :=
  (inst.AccountMetaSlice.assign 1 (Meta manager).SIGNER).bind fun s =>
    .returned { inst with AccountMetaSlice := s }

def SetManager.SetNewManager (inst : StakePool.SetManager) (newManager : PublicKey) :
    Outcome StakePool.SetManager :=
  (inst.AccountMetaSlice.assign 2 (Meta newManager).SIGNER).bind fun s =>
    .returned { inst with AccountMetaSlice := s }

def SetManager.SetNewManagerFeeAccount (inst : StakePool.SetManager)
    (newManagerFeeAccount : PublicKey) : Outcome StakePool.SetManager :=
  (inst.AccountMetaSlice.assign 3 (Meta newManagerFeeAccount)).bind fun s =>
    .returned { inst with AccountMetaSlice := s }

def NewSetManagerInstruction (stakePool manager newManager newManagerFeeAccount : PublicKey) :
    Outcome StakePool.SetManager :=
  (((NewSetManagerInstructionBuilder.SetStakePool stakePool).bind
    fun i => i.SetManager manager).bind
    fun i => i.SetNewManager newManager).bind
    fun i => i.SetNewManagerFeeAccount newManagerFeeAccount

def SetManager.Validate (inst : StakePool.SetManager) : Option Error :=
  rangeNilCheck Error.insAccountMetaSliceNotSet 0 inst.AccountMetaSlice

def SetManager.Build (codes : InstructionCodes) (inst : StakePool.SetManager) :
    Instruction StakePool.SetManager :=
  { TypeID := TypeIDFromUint8 codes.Instruction_SetManager, Impl := inst }

def SetManager.ValidateAndBuild (codes : InstructionCodes) (inst : StakePool.SetManager) :
    Option (Instruction StakePool.SetManager) × Option Error :=
  match inst.Validate with
  | some err => (none, some err)
  | none => (some (inst.Build codes), none)

/-! ## SetStaker -/

/-- The builder `SetStaker`.
Slots: `[0] = [WRITE] stakePool`, `[1] = [SIGNER] currentStaker`, `[2] = [] newStaker`. -/
structure SetStaker where
  AccountMetaSlice : AccountMetaSlice
deriving DecidableEq, Repr

def NewSetStakerInstructionBuilder : SetStaker :=
  { AccountMetaSlice := AccountMetaSlice.make 3 }

def SetStaker.SetStakePool (inst : SetStaker) (pool : PublicKey) : Outcome SetStaker :=
  (inst.AccountMetaSlice.assign 0 (Meta pool).WRITE).bind fun s =>
    .returned { inst with AccountMetaSlice := s }

def SetStaker.SetCurrentStaker (inst : SetStaker) (staker : PublicKey) : Outcome SetStaker :=
  (inst.AccountMetaSlice.assign 1 (Meta staker).SIGNER).bind fun s =>
    .returned { inst with AccountMetaSlice := s }

def SetStaker.SetNewStaker (inst : SetStaker) (newStaker : PublicKey) : Outcome SetStaker :=
  (inst.AccountMetaSlice.assign 2 (Meta newStaker)).bind fun s =>
    .returned { inst with AccountMetaSlice := s }

def NewSetStakerInstruction (stakePool signer newStaker : PublicKey) : Outcome SetStaker :=
  ((NewSetStakerInstructionBuilder.SetStakePool stakePool).bind
    fun i => i.SetCurrentStaker signer).bind
    fun i => i.SetNewStaker newStaker

def SetStaker.Validate (inst : SetStaker) : Option Error :=
  rangeNilCheck Error.insAccountMetaSliceNotSet 0 inst.AccountMetaSlice

def SetStaker.Build (codes : InstructionCodes) (inst : SetStaker) : Instruction SetStaker :=
  { TypeID := TypeIDFromUint8 codes.Instruction_SetStaker, Impl := inst }

def SetStaker.ValidateAndBuild (codes : InstructionCodes) (inst : SetStaker) :
    Option (Instruction SetStaker) × Option Error :=
  match inst.Validate with
  | some err => (none, some err)
  | none => (some (inst.Build codes), none)

/-! ## The external binary codec -/

/-- State of an `ag_binary.Encoder`: the bytes written so far. -/
structure Encoder where
  written : List Byte
deriving DecidableEq, Repr

/-- State of an `ag_binary.Decoder`: the bytes not yet read. -/
structure Decoder where
  remaining : List Byte
deriving DecidableEq, Repr

/-- The generic binary encoder and decoder (`encoder.Encode`, `decoder.Decode`) are an
external collaborator, so the glue code takes them as a parameter: one operation per
type of value the glue hands over. Each call returns its `error` and the new state of
the encoder or decoder (and of the value decoded into), or faults.

* `F` is what a non-nil `FeeType` holds, `A` is `UpdateValidatorListBalanceArgs`;
  both types are declared outside the sources at hand.
* `decodeAccount` decodes through a non-nil `*AccountMeta`; `decodeNilAccount` is the
  call with a nil pointer, which cannot change the slot it was read from. -/
structure Codec (F A : Type) where
  encodeFee : F → Encoder → Outcome (Option Error × Encoder)
  encodeAccount : Option AccountMeta → Encoder → Outcome (Option Error × Encoder)
  encodeArgs : Option A → Encoder → Outcome (Option Error × Encoder)
  decodeFee : F → Decoder → Outcome (Option Error × F × Decoder)
  decodeAccount : AccountMeta → Decoder → Outcome (Option Error × AccountMeta × Decoder)
  decodeNilAccount : Decoder → Outcome (Option Error × Decoder)
  decodeArgs : Option A → Decoder → Outcome (Option Error × Option A × Decoder)

/-! ## SetFee -/

/-- The builder `SetFee`. `Fee` is the interface value `FeeType` (nil when unset).
Slots of `Accounts`: `[0] = [WRITE] stakePool`, `[1] = [SIGNER] manager`. -/
structure SetFee (F : Type) where
  Fee : Option F
  Accounts : AccountMetaSlice
  Signers : AccountMetaSlice
deriving DecidableEq, Repr

def NewSetFeeInstructionBuilder (F : Type) : SetFee F :=
  { Fee := none, Accounts := AccountMetaSlice.make 2, Signers := AccountMetaSlice.make 1 }

def SetFee.SetStakePool {F : Type} (s : SetFee F) (stakePool : PublicKey) :
    Outcome (SetFee F) :=
  (s.Accounts.assign 0 (Meta stakePool).WRITE).bind fun accounts =>
    .returned { s with Accounts := accounts }

def SetFee.SetManager {F : Type} (s : SetFee F) (manager : PublicKey) : Outcome (SetFee F) :=
  (s.Accounts.assign 1 (Meta manager).SIGNER).bind fun accounts =>
    (s.Signers.assign 0 (Meta manager).SIGNER).bind fun signers =>
      .returned { s with Accounts := accounts, Signers := signers }

def SetFee.GetFee {F : Type} (s : SetFee F) : Option F := s.Fee

def SetFee.SetFee {F : Type} (s : SetFee F) (fee : Option F) : StakePool.SetFee F :=
  { s with Fee := fee }

def NewSetFeeInstruction {F : Type} (fee : Option F) (stakePool manager : PublicKey) :
    Outcome (StakePool.SetFee F) :=
  (((NewSetFeeInstructionBuilder F).SetFee fee).SetStakePool stakePool).bind
    fun s => s.SetManager manager

def SetFee.Validate {F : Type} (s : StakePool.SetFee F) : Outcome (Option Error) :=
  match s.Fee with
  | none => .returned (some .feeNotSet)
  | some _ =>
    match rangeNilCheck Error.accountsNotSet 0 s.Accounts with
    | some err => .returned (some err)
    | none =>
      match s.Signers with
      | [] => .returned (some .managerShouldBeSigner)
      | none :: _ => .fault
      | some signer :: _ =>
        if !signer.IsSigner then .returned (some .managerShouldBeSigner)
        else .returned none

def SetFee.Build {F : Type} (codes : InstructionCodes) (s : StakePool.SetFee F) :
    Instruction (StakePool.SetFee F) :=
  { TypeID := TypeIDFromUint8 codes.Instruction_SetFee, Impl := s }

def SetFee.ValidateAndBuild {F : Type} (codes : InstructionCodes) (s : StakePool.SetFee F) :
    Outcome (Option (Instruction (StakePool.SetFee F)) × Option Error) :=
  s.Validate.bind fun r =>
    match r with
    | some err => .returned (none, some err)
    | none => .returned (some (s.Build codes), none)

/-- The loop `for _, account := range s.Accounts { if err := encoder.Encode(account);
err != nil { return err } }` of `SetFee.MarshalWithEncoder`. -/
def SetFee.encodeAccounts {F A : Type} (codec : Codec F A) :
    AccountMetaSlice → Encoder → Outcome (Option Error × Encoder)
  | [], encoder => .returned (none, encoder)
  | account :: rest, encoder =>
    (codec.encodeAccount account encoder).bind fun r =>
      match r with
      | (some err, encoder1) => .returned (some err, encoder1)
      | (none, encoder1) => SetFee.encodeAccounts codec rest encoder1

def SetFee.MarshalWithEncoder {F A : Type} (codec : Codec F A) (s : StakePool.SetFee F)
    (encoder : Encoder) : Outcome (Option Error × Encoder) :=
  let afterFee : Outcome (Option Error × Encoder) :=
    match s.Fee with
    | some fee => codec.encodeFee fee encoder
    | none => .returned (none, encoder)
  afterFee.bind fun r =>
    match r with
    | (some err, encoder1) => .returned (some err, encoder1)
    | (none, encoder1) => SetFee.encodeAccounts codec s.Accounts encoder1

/-- The loop `for i := range s.Accounts { if err := decoder.Decode(s.Accounts[i]);
err != nil { return err } }` of `SetFee.UnmarshalWithDecoder`, on the slots not yet
visited; it returns the slots as the calls leave them. -/
def SetFee.decodeAccounts {F A : Type} (codec : Codec F A) :
    AccountMetaSlice → Decoder → Outcome (Option Error × AccountMetaSlice × Decoder)
  | [], decoder => .returned (none, [], decoder)
  | none :: rest, decoder =>
    (codec.decodeNilAccount decoder).bind fun r =>
      match r with
      | (some err, decoder1) => .returned (some err, none :: rest, decoder1)
      | (none, decoder1) =>
        (SetFee.decodeAccounts codec rest decoder1).bind fun r1 =>
          .returned (r1.1, none :: r1.2.1, r1.2.2)
  | some account :: rest, decoder =>
    (codec.decodeAccount account decoder).bind fun r =>
      match r with
      | (some err, account1, decoder1) => .returned (some err, some account1 :: rest, decoder1)
      | (none, account1, decoder1) =>
        (SetFee.decodeAccounts codec rest decoder1).bind fun r1 =>
          .returned (r1.1, some account1 :: r1.2.1, r1.2.2)

def SetFee.UnmarshalWithDecoder {F A : Type} (codec : Codec F A) (s : StakePool.SetFee F)
    (decoder : Decoder) : Outcome (Option Error × StakePool.SetFee F × Decoder) :=
  let afterFee : Outcome (Option Error × Option F × Decoder) :=
    match s.Fee with
    | some fee =>
      (codec.decodeFee fee decoder).bind fun r => .returned (r.1, some r.2.1, r.2.2)
    | none => .returned (none, none, decoder)
  afterFee.bind fun r =>
    match r with
    | (some err, fee1, decoder1) => .returned (some err, { s with Fee := fee1 }, decoder1)
    | (none, fee1, decoder1) =>
      (SetFee.decodeAccounts codec s.Accounts decoder1).bind fun r1 =>
        .returned (r1.1, { s with Fee := fee1, Accounts := r1.2.1 }, r1.2.2)

/-! ## UpdateValidatorListBalance -/

/-- The builder `UpdateValidatorListBalance`; `Args` is a pointer (nil when unset).
Slots of `Accounts`: `[0] = [] stakePool`, `[1] = [] withdrawAuthority`,
`[2] = [WRITE] validatorList`, `[3] = [WRITE] reserveStake`, `[4] = [] clock`,
`[5] = [] stakeHistory`, `[6] = [] stakeProgram`,
`[7..N] = [] validatorAndTransientStakeAccounts`. -/
structure UpdateValidatorListBalance (A : Type) where
  Args : Option A
  Accounts : AccountMetaSlice
  Signers : AccountMetaSlice
deriving DecidableEq, Repr

namespace UpdateValidatorListBalance

variable {A : Type}

def GetAccounts (u : UpdateValidatorListBalance A) : AccountMetaSlice := u.Accounts

def SetAccounts (u : UpdateValidatorListBalance A) (accounts : AccountMetaSlice) :
    UpdateValidatorListBalance A × Option Error :=
  ({ u with Accounts := accounts }, none)

def SetArgs (u : UpdateValidatorListBalance A) (args : A) : UpdateValidatorListBalance A :=
  { u with Args := some args }

def SetStakePool (u : UpdateValidatorListBalance A) (pool : PublicKey) :
    Outcome (UpdateValidatorListBalance A) :=
  (u.Accounts.assign 0 (Meta pool)).bind fun accounts =>
    .returned { u with Accounts := accounts }

def SetWithdrawAuthority (u : UpdateValidatorListBalance A) (withdrawAuthority : PublicKey) :
    Outcome (UpdateValidatorListBalance A) :=
  (u.Accounts.assign 1 (Meta withdrawAuthority)).bind fun accounts =>
    .returned { u with Accounts := accounts }

def SetValidatorList (u : UpdateValidatorListBalance A) (validatorList : PublicKey) :
    Outcome (UpdateValidatorListBalance A) :=
  (u.Accounts.assign 2 (Meta validatorList).WRITE).bind fun accounts =>
    .returned { u with Accounts := accounts }

def SetReserveStake (u : UpdateValidatorListBalance A) (reserveStake : PublicKey) :
    Outcome (UpdateValidatorListBalance A) :=
  (u.Accounts.assign 3 (Meta reserveStake).WRITE).bind fun accounts =>
    .returned { u with Accounts := accounts }

def SetValidatorAndTransientAccounts (u : UpdateValidatorListBalance A)
    (accounts : List PublicKey) : UpdateValidatorListBalance A :=
  accounts.foldl
    (fun u1 acc => { u1 with Accounts := u1.Accounts ++ [some (Meta acc).WRITE] }) u

def SetValidatorStakeAccount (u : UpdateValidatorListBalance A)
    (validatorStakeAccount : PublicKey) : Outcome (UpdateValidatorListBalance A) :=
  (u.Accounts.assign 7 (Meta validatorStakeAccount).WRITE).bind fun accounts =>
    .returned { u with Accounts := accounts }

def SetClock (u : UpdateValidatorListBalance A) (clock : PublicKey) :
    Outcome (UpdateValidatorListBalance A) :=
  (u.Accounts.assign 4 (Meta clock)).bind fun accounts =>
    .returned { u with Accounts := accounts }

def SetStakeHistory (u : UpdateValidatorListBalance A) (stakeHistory : PublicKey) :
    Outcome (UpdateValidatorListBalance A) :=
  (u.Accounts.assign 5 (Meta stakeHistory)).bind fun accounts =>
    .returned { u with Accounts := accounts }

def SetStakeProgram (u : UpdateValidatorListBalance A) (stakeProgram : PublicKey) :
    Outcome (UpdateValidatorListBalance A) :=
  (u.Accounts.assign 6 (Meta stakeProgram)).bind fun accounts =>
    .returned { u with Accounts := accounts }

def Validate (u : UpdateValidatorListBalance A) : Option Error :=
  match u.Args with
  | none => some .argsNotSet
  | some _ => rangeNilCheck Error.accountsNotSet 0 u.Accounts

def Build (codes : InstructionCodes) (u : UpdateValidatorListBalance A) :
    Instruction (UpdateValidatorListBalance A) :=
  { TypeID := TypeIDFromUint8 codes.Instruction_UpdateValidatorListBalance, Impl := u }

def ValidateAndBuild (codes : InstructionCodes) (u : UpdateValidatorListBalance A) :
    Option (Instruction (UpdateValidatorListBalance A)) × Option Error :=
  match u.Validate with
  | some err => (none, some err)
  | none => (some (u.Build codes), none)

def MarshalWithEncoder {F : Type} (codec : Codec F A) (u : UpdateValidatorListBalance A)
    (encoder : Encoder) : Outcome (Option Error × Encoder) :=
  codec.encodeArgs u.Args encoder

def UnmarshalWithDecoder {F : Type} (codec : Codec F A) (u : UpdateValidatorListBalance A)
    (decoder : Decoder) : Outcome (Option Error × UpdateValidatorListBalance A × Decoder) :=
  (codec.decodeArgs u.Args decoder).bind fun r =>
    .returned (r.1, { u with Args := r.2.1 }, r.2.2)

end UpdateValidatorListBalance

def NewUpdateValidatorListBalanceInstructionBuilder (A : Type) : UpdateValidatorListBalance A :=
  { Args := none, Accounts := AccountMetaSlice.make 7, Signers := AccountMetaSlice.make 1 }

def NewUpdateValidatorListBalanceInstruction {A : Type} (args : A)
    (stakePool withdrawAuthority validatorList reserveStake clock stakeHistory
      stakeProgram : PublicKey)
    (validatorAndTransientStakeAccounts : List PublicKey)
    (_transientStakeAccount : PublicKey) : Outcome (UpdateValidatorListBalance A) :=
  (((((((((NewUpdateValidatorListBalanceInstructionBuilder A).SetArgs args).SetStakePool
    stakePool).bind
    fun u => u.SetWithdrawAuthority withdrawAuthority).bind
    fun u => u.SetValidatorList validatorList).bind
    fun u => u.SetReserveStake reserveStake).bind
    fun u => u.SetClock clock).bind
    fun u => u.SetStakeHistory stakeHistory).bind
    fun u => u.SetStakeProgram stakeProgram).bind
    fun u => .returned (u.SetValidatorAndTransientAccounts validatorAndTransientStakeAccounts)

/-! ## UpdateValidatorListBalance: trailing-slot getters and address derivation -/

/-- The read `slice[i].PublicKey`: faults when `i` is out of range, and when the slot
is nil. -/
def AccountMetaSlice.publicKeyAt (slice : AccountMetaSlice) (i : Nat) : Outcome PublicKey :=
  match slice[i]? with
  | none => .fault
  | some none => .fault
  | some (some account) => .returned account.PublicKey

def UpdateValidatorListBalance.GetValidatorStakeAccount {A : Type}
    (u : UpdateValidatorListBalance A) : Outcome PublicKey :=
  u.Accounts.publicKeyAt 7

def UpdateValidatorListBalance.GetTransientStakeAccount {A : Type}
    (u : UpdateValidatorListBalance A) : Outcome PublicKey :=
  u.Accounts.publicKeyAt 8

/-- The library routine `ag_solanago.FindProgramAddress(seeds, programID)`, an external
collaborator taken as a parameter: a function of the seed list and the program id
that returns the address, the bump and the error. -/
abbrev ProgramAddressFinder := List (List Byte) → PublicKey → PublicKey × Nat × Option Error

/-- The conversion `byte(v)` of an unsigned integer: its low eight bits. -/
def byteOf (v : Nat) : Byte := ⟨v % 256, Nat.mod_lt _ (by decide)⟩

/-- The standard routine `binary.LittleEndian.PutUint32(b, v)` on a slice of at least
four bytes: `b[0] = byte(v)`, `b[1] = byte(v >> 8)`, `b[2] = byte(v >> 16)`,
`b[3] = byte(v >> 24)`. -/
def LittleEndian.PutUint32 (b : List Byte) (v : Nat) : List Byte :=
  (((b.set 0 (byteOf v)).set 1 (byteOf (v >>> 8))).set 2 (byteOf (v >>> 16))).set 3
    (byteOf (v >>> 24))

/-- The conversion `[]byte(s)` of an ASCII string. -/
def asciiBytes (s : String) : List Byte := s.toList.map fun c => byteOf c.toNat

/-- The seed list built by `FindTransientStakeAccount`; `validatorTransitSuffix` is a
`uint32`. -/
def UpdateValidatorListBalance.transientSeeds (voteAccountAddress stakePoolAddress : PublicKey)
    (validatorTransitSuffix : Nat) : List (List Byte) :=
  let seedBytes := LittleEndian.PutUint32 (List.replicate 8 0) validatorTransitSuffix
  [asciiBytes "transient", voteAccountAddress.bytes, stakePoolAddress.bytes, seedBytes]

def UpdateValidatorListBalance.FindTransientStakeAccount {A : Type}
    (findProgramAddress : ProgramAddressFinder) (_u : UpdateValidatorListBalance A)
    (programID voteAccountAddress stakePoolAddress : PublicKey)
    (validatorTransitSuffix : Nat) : PublicKey × Nat × Option Error :=
  findProgramAddress
    (UpdateValidatorListBalance.transientSeeds voteAccountAddress stakePoolAddress
      validatorTransitSuffix)
    programID

/-- The seed list built by `FindStakeProgramAddress`. -/
def UpdateValidatorListBalance.stakeProgramSeeds
    (voteAccountAddress stakePoolAddress : PublicKey) : List (List Byte) :=
  [voteAccountAddress.bytes, stakePoolAddress.bytes]

def UpdateValidatorListBalance.FindStakeProgramAddress {A : Type}
    (findProgramAddress : ProgramAddressFinder) (_u : UpdateValidatorListBalance A)
    (programID voteAccountAddress stakePoolAddress : PublicKey) :
    PublicKey × Nat × Option Error :=
  findProgramAddress
    (UpdateValidatorListBalance.stakeProgramSeeds voteAccountAddress stakePoolAddress)
    programID

/-- The little-endian encoding of `n` in eight bytes (the bytes of `n` zero-extended to
64 bits, lowest first). -/
def littleEndian64 (n : Nat) : List Byte :=
  (List.range 8).map fun i => byteOf (n / 256 ^ i)

/-! ## Call sequences on a SetFee builder -/

/-- One call of a setter of the `SetFee` builder. -/
inductive SetFeeCall (F : Type) where
  | SetFee (fee : Option F)
  | SetStakePool (stakePool : PublicKey)
  | SetManager (manager : PublicKey)
deriving DecidableEq, Repr

/-- Perform one setter call. -/
def SetFeeCall.run {F : Type} (s : StakePool.SetFee F) :
    SetFeeCall F → Outcome (StakePool.SetFee F)
  | .SetFee fee => .returned (s.SetFee fee)
  | .SetStakePool stakePool => s.SetStakePool stakePool
  | .SetManager manager => s.SetManager manager

/-- Perform a sequence of setter calls, first to last. -/
def SetFee.runCalls {F : Type} (s : StakePool.SetFee F) :
    List (SetFeeCall F) → Outcome (StakePool.SetFee F)
  | [] => .returned s
  | call :: calls => (call.run s).bind fun s1 => SetFee.runCalls s1 calls

/-- The state invariant of the `SetFee` builder: two account slots, one signer slot,
and the signer slot mirrors account slot 1 (both nil, or both the manager reference
with the signer flag). -/
def SetFee.Mirrored {F : Type} (s : StakePool.SetFee F) : Prop :=
  ∃ slot0 slot1 : Option AccountMeta, s.Accounts = [slot0, slot1] ∧ s.Signers = [slot1] ∧
    (slot1 = none ∨ ∃ manager : PublicKey, slot1 = some (Meta manager).SIGNER)

/-! ## Round-trip assumptions on the codec -/

/-- The codec round-trips a fee: encoding appends some bytes to the output, and
decoding input that starts with those bytes yields the fee and leaves the rest. -/
def Codec.RoundTripsFee {F A : Type} (codec : Codec F A) : Prop :=
  ∀ (fee : F) (encoder : Encoder), ∃ bytes : List Byte,
    codec.encodeFee fee encoder = .returned (none, ⟨encoder.written ++ bytes⟩) ∧
    ∀ (target : F) (rest : List Byte),
      codec.decodeFee target ⟨bytes ++ rest⟩ = .returned (none, fee, ⟨rest⟩)

/-- The codec round-trips an account reference, in the same sense. -/
def Codec.RoundTripsAccount {F A : Type} (codec : Codec F A) : Prop :=
  ∀ (account : AccountMeta) (encoder : Encoder), ∃ bytes : List Byte,
    codec.encodeAccount (some account) encoder =
      .returned (none, ⟨encoder.written ++ bytes⟩) ∧
    ∀ (target : AccountMeta) (rest : List Byte),
      codec.decodeAccount target ⟨bytes ++ rest⟩ = .returned (none, account, ⟨rest⟩)

/-- The codec writes at least one byte for a non-nil account reference. -/
def Codec.WritesAccounts {F A : Type} (codec : Codec F A) : Prop :=
  ∀ (account : AccountMeta) (encoder : Encoder), ∃ bytes : List Byte, bytes ≠ [] ∧
    codec.encodeAccount (some account) encoder =
      .returned (none, ⟨encoder.written ++ bytes⟩)

/-! ## A sample codec for concrete inputs

Not part of the embedded program: one codec to instantiate the statements with. A fee
and the arguments are one byte each; an account reference is laid out field by field
(the 32 key bytes, then one byte per flag); a nil value is refused with an error. -/

/-- One byte for a flag. -/
def sampleFlag (b : Bool) : Byte := if b then 1 else 0

/-- The bytes of an account reference: key, `IsWritable`, `IsSigner`. -/
def sampleAccountBytes (account : AccountMeta) : List Byte :=
  account.PublicKey.bytes ++ [sampleFlag account.IsWritable, sampleFlag account.IsSigner]

/-- Read one account reference from the front of the input. -/
def sampleReadAccount (bytes : List Byte) : Option (AccountMeta × List Byte) :=
  if h : (bytes.take 32).length = 32 then
    match bytes.drop 32 with
    | w :: g :: rest =>
      some ({ PublicKey := ⟨bytes.take 32, h⟩, IsWritable := w != 0, IsSigner := g != 0 }, rest)
    | _ => none
  else none

def sampleCodec : Codec Byte Byte where
  encodeFee fee encoder := .returned (none, ⟨encoder.written ++ [fee]⟩)
  encodeAccount account encoder :=
    match account with
    | some a => .returned (none, ⟨encoder.written ++ sampleAccountBytes a⟩)
    | none => .returned (some (.codec "nil value"), encoder)
  encodeArgs args encoder :=
    match args with
    | some a => .returned (none, ⟨encoder.written ++ [a]⟩)
    | none => .returned (some (.codec "nil value"), encoder)
  decodeFee target decoder :=
    match decoder.remaining with
    | b :: rest => .returned (none, b, ⟨rest⟩)
    | [] => .returned (some (.codec "unexpected end of input"), target, decoder)
  decodeAccount target decoder :=
    match sampleReadAccount decoder.remaining with
    | some (a, rest) => .returned (none, a, ⟨rest⟩)
    | none => .returned (some (.codec "unexpected end of input"), target, decoder)
  decodeNilAccount decoder := .returned (some (.codec "nil target"), decoder)
  decodeArgs target decoder :=
    match decoder.remaining with
    | b :: rest => .returned (none, some b, ⟨rest⟩)
    | [] => .returned (some (.codec "unexpected end of input"), target, decoder)

/-! ## FutureEpoch -/

/-- The tagged value `FutureEpoch[T]` of `accounts.go`: the tag `Enum` (a `bin.BorshEnum`,
one byte), the empty variant `None` and the two payload fields `One` and `Two`. -/
structure FutureEpoch (T : Type) where
  Enum : Nat
  None : Unit
  One : T
  Two : T
deriving DecidableEq, Repr

/-- The field of a `FutureEpoch` that a non-nil result of `Value` points to:
`&f.One` or `&f.Two`. -/
inductive FutureEpochField where
  | One
  | Two
deriving DecidableEq, Repr

/-- The contents a field reference points to. -/
def FutureEpochField.load {T : Type} (f : FutureEpoch T) : FutureEpochField → T
  | .One => f.One
  | .Two => f.Two

/-- The method `Value`: a reference to the field the tag selects, or nil. -/
def FutureEpoch.Value {T : Type} (f : FutureEpoch T) : Option FutureEpochField :=
  match f.Enum with
  | 0 => none
  | 1 => some .One
  | 2 => some .Two
  | _ => none

/-! ## Properties of the slot scan -/

/-- The scan started at index `i` either finds no nil slot, or reports `i + k` where
`k` is the position of the first nil slot of the rest. -/
theorem rangeNilCheck_cases (mk : Nat → Error) (slots : AccountMetaSlice) (i : Nat) :
    (rangeNilCheck mk i slots = none ∧ ∀ k : Nat, slots[k]? ≠ some none) ∨
    ∃ k, rangeNilCheck mk i slots = some (mk (i + k)) ∧ slots[k]? = some none ∧
      ∀ j, j < k → slots[j]? ≠ some none := by
  induction slots generalizing i with
  | nil => left; simp [rangeNilCheck]
  | cons acc rest ih =>
    cases acc with
    | none =>
      right
      exact ⟨0, by simp [rangeNilCheck], by simp, by intro j hj; omega⟩
    | some a =>
      rcases ih (i + 1) with ⟨h1, h2⟩ | ⟨k, h1, h2, h3⟩
      · left
        refine ⟨by simpa [rangeNilCheck] using h1, ?_⟩
        intro k
        cases k with
        | zero => simp
        | succ k => simpa using h2 k
      · right
        refine ⟨k + 1, ?_, by simpa using h2, ?_⟩
        · simp only [rangeNilCheck, h1]
          congr 2
          omega
        · intro j hj
          cases j with
          | zero => simp
          | succ j => simpa using h3 j (by omega)

/-- What the scan from index 0 reports: an error exactly when some slot is nil, and
then the index of the first nil slot. -/
theorem rangeNilCheck_zero (mk : Nat → Error) (slots : AccountMetaSlice) :
    ((∃ e, rangeNilCheck mk 0 slots = some e) ↔ ∃ k : Nat, slots[k]? = some none) ∧
    (∀ e, rangeNilCheck mk 0 slots = some e →
      ∃ k, e = mk k ∧ slots[k]? = some none ∧ ∀ j, j < k → slots[j]? ≠ some none) ∧
    ((∀ k : Nat, slots[k]? ≠ some none) → rangeNilCheck mk 0 slots = none) := by
  rcases rangeNilCheck_cases mk slots 0 with ⟨h1, h2⟩ | ⟨k, h1, h2, h3⟩
  · refine ⟨⟨?_, ?_⟩, ?_, fun _ => h1⟩
    · rintro ⟨e, he⟩
      rw [h1] at he
      cases he
    · rintro ⟨k, hk⟩
      exact absurd hk (h2 k)
    · intro e he
      rw [h1] at he
      cases he
  · rw [Nat.zero_add] at h1
    refine ⟨⟨fun _ => ⟨k, h2⟩, fun _ => ⟨_, h1⟩⟩, ?_, fun h => absurd h2 (h k)⟩
    intro e he
    rw [h1] at he
    cases he
    exact ⟨k, rfl, h2, h3⟩

/-! ## Validation of the account-only variants -/

/-- Claim C1. For `SetManager` and `SetStaker` and every content of the account slot
list: `Validate` returns an error if and only if at least one slot is nil; the error
it returns names the lowest index of a nil slot; and when no slot is nil it returns
no error. -/
theorem validate_accountOnly_reports_lowest_nil (slots : AccountMetaSlice) :
    (((∃ e, SetManager.Validate ⟨slots⟩ = some e) ↔ ∃ k : Nat, slots[k]? = some none) ∧
      (∀ e, SetManager.Validate ⟨slots⟩ = some e →
        ∃ k, e = Error.insAccountMetaSliceNotSet k ∧ slots[k]? = some none ∧
          ∀ j, j < k → slots[j]? ≠ some none) ∧
      ((∀ k : Nat, slots[k]? ≠ some none) → SetManager.Validate ⟨slots⟩ = none)) ∧
    (((∃ e, SetStaker.Validate ⟨slots⟩ = some e) ↔ ∃ k : Nat, slots[k]? = some none) ∧
      (∀ e, SetStaker.Validate ⟨slots⟩ = some e →
        ∃ k, e = Error.insAccountMetaSliceNotSet k ∧ slots[k]? = some none ∧
          ∀ j, j < k → slots[j]? ≠ some none) ∧
      ((∀ k : Nat, slots[k]? ≠ some none) → SetStaker.Validate ⟨slots⟩ = none)) :=
  ⟨rangeNilCheck_zero _ slots, rangeNilCheck_zero _ slots⟩

/-! ## Validation of the parameter-carrying variants -/

/-- With `Fee` set, `SetFee.Validate` returns the error of the slot scan when the scan
finds a nil slot. -/
theorem SetFee.validate_of_scan_some {F : Type} (s : StakePool.SetFee F) (fee : F)
    (err : Error) (hFee : s.Fee = some fee)
    (h : rangeNilCheck Error.accountsNotSet 0 s.Accounts = some err) :
    s.Validate = .returned (some err) := by
  simp [SetFee.Validate, hFee, h]

/-- With `Fee` set and no nil slot, `SetFee.Validate` is decided by `Signers` alone
and never reports a missing account. -/
theorem SetFee.validate_of_scan_none {F : Type} (s : StakePool.SetFee F) (fee : F)
    (hFee : s.Fee = some fee)
    (h : rangeNilCheck Error.accountsNotSet 0 s.Accounts = none) (i : Nat) :
    s.Validate ≠ .returned (some (.accountsNotSet i)) := by
  simp only [SetFee.Validate, hFee, h]
  rcases hs : s.Signers with _ | ⟨_ | signer, rest⟩
  · simp
  · simp
  · cases hb : signer.IsSigner <;> simp [hb]

/-- Claim C2, as amended. For `SetFee` with `Fee` set and `UpdateValidatorListBalance`
with `Args` set, whatever the account slots hold: `Validate` fails with the missing
account error `accounts[i] is not set` if and only if at least one account slot is
nil, and the reported index `i` is the lowest index of a nil slot. -/
theorem validate_param_variants_missing_account {F A : Type} (s : SetFee F)
    (u : UpdateValidatorListBalance A) (hFee : s.Fee ≠ none) (hArgs : u.Args ≠ none) :
    (((∃ i, s.Validate = .returned (some (.accountsNotSet i))) ↔
        ∃ k : Nat, s.Accounts[k]? = some none) ∧
      (∀ i, s.Validate = .returned (some (.accountsNotSet i)) →
        s.Accounts[i]? = some none ∧ ∀ j, j < i → s.Accounts[j]? ≠ some none)) ∧
    (((∃ i, u.Validate = some (.accountsNotSet i)) ↔
        ∃ k : Nat, u.Accounts[k]? = some none) ∧
      (∀ i, u.Validate = some (.accountsNotSet i) →
        u.Accounts[i]? = some none ∧ ∀ j, j < i → u.Accounts[j]? ≠ some none)) := by
  constructor
  · obtain ⟨fee, hfee⟩ := Option.ne_none_iff_exists'.mp hFee
    rcases rangeNilCheck_cases Error.accountsNotSet s.Accounts 0 with
      ⟨h1, h2⟩ | ⟨k, h1, h2, h3⟩
    · refine ⟨⟨?_, ?_⟩, ?_⟩
      · rintro ⟨i, hi⟩
        exact absurd hi (SetFee.validate_of_scan_none s fee hfee h1 i)
      · rintro ⟨k, hk⟩
        exact absurd hk (h2 k)
      · intro i hi
        exact absurd hi (SetFee.validate_of_scan_none s fee hfee h1 i)
    · rw [Nat.zero_add] at h1
      have hv := SetFee.validate_of_scan_some s fee _ hfee h1
      refine ⟨⟨fun _ => ⟨k, h2⟩, fun _ => ⟨k, hv⟩⟩, ?_⟩
      intro i hi
      rw [hv] at hi
      injection hi with hi
      injection hi with hi
      injection hi with hi
      subst hi
      exact ⟨h2, h3⟩
  · obtain ⟨args, hargs⟩ := Option.ne_none_iff_exists'.mp hArgs
    have hv : u.Validate = rangeNilCheck Error.accountsNotSet 0 u.Accounts := by
      simp [UpdateValidatorListBalance.Validate, hargs]
    rw [hv]
    obtain ⟨h1, h2, _⟩ := rangeNilCheck_zero Error.accountsNotSet u.Accounts
    refine ⟨⟨?_, ?_⟩, ?_⟩
    · rintro ⟨i, hi⟩
      exact h1.mp ⟨_, hi⟩
    · intro hk
      obtain ⟨e, he⟩ := h1.mpr hk
      obtain ⟨k, hk1, _, _⟩ := h2 e he
      exact ⟨k, hk1 ▸ he⟩
    · intro i hi
      obtain ⟨k, hk1, hk2, hk3⟩ := h2 _ hi
      injection hk1 with hk1
      subst hk1
      exact ⟨hk2, hk3⟩

/-- Witness for claim C2 as amended: a `SetFee` with the fee set and slot 1 nil, and an
`UpdateValidatorListBalance` with the arguments set and slot 0 nil. -/
theorem validate_param_variants_missing_account_witness :
    (((∃ i, SetFee.Validate (F := Nat)
          ⟨some 5, [some (Meta (PublicKey.ofByte 1)).WRITE, none], [none]⟩ =
            .returned (some (.accountsNotSet i))) ↔
        ∃ k : Nat, ([some (Meta (PublicKey.ofByte 1)).WRITE, none] :
          AccountMetaSlice)[k]? = some none) ∧
      (∀ i, SetFee.Validate (F := Nat)
          ⟨some 5, [some (Meta (PublicKey.ofByte 1)).WRITE, none], [none]⟩ =
            .returned (some (.accountsNotSet i)) →
        ([some (Meta (PublicKey.ofByte 1)).WRITE, none] : AccountMetaSlice)[i]? = some none ∧
          ∀ j, j < i →
            ([some (Meta (PublicKey.ofByte 1)).WRITE, none] : AccountMetaSlice)[j]? ≠
              some none)) ∧
    (((∃ i, UpdateValidatorListBalance.Validate (A := Nat) ⟨some 7, [none], [none]⟩ =
          some (.accountsNotSet i)) ↔
        ∃ k : Nat, ([none] : AccountMetaSlice)[k]? = some none) ∧
      (∀ i, UpdateValidatorListBalance.Validate (A := Nat) ⟨some 7, [none], [none]⟩ =
          some (.accountsNotSet i) →
        ([none] : AccountMetaSlice)[i]? = some none ∧
          ∀ j, j < i → ([none] : AccountMetaSlice)[j]? ≠ some none)) :=
  validate_param_variants_missing_account
    (⟨some 5, [some (Meta (PublicKey.ofByte 1)).WRITE, none], [none]⟩ : SetFee Nat)
    (⟨some 7, [none], [none]⟩ : UpdateValidatorListBalance Nat) (by simp) (by simp)

/-- Claim C2, as stated, fails: on the freshly constructed builders the parameter is
not set and every account slot is nil, yet `Validate` does not report a missing
account; it reports the missing parameter. -/
theorem validate_param_variants_missing_account_counterexample :
    ¬ ((∃ i, (NewSetFeeInstructionBuilder Nat).Validate =
            .returned (some (.accountsNotSet i))) ↔
          ∃ k : Nat, (NewSetFeeInstructionBuilder Nat).Accounts[k]? = some none) ∧
    ¬ ((∃ i, (NewUpdateValidatorListBalanceInstructionBuilder Nat).Validate =
            some (.accountsNotSet i)) ↔
          ∃ k : Nat,
            (NewUpdateValidatorListBalanceInstructionBuilder Nat).Accounts[k]? = some none) := by
  constructor
  · intro h
    obtain ⟨i, hi⟩ := h.mpr ⟨0, by decide⟩
    simp [SetFee.Validate, NewSetFeeInstructionBuilder] at hi
  · intro h
    obtain ⟨i, hi⟩ := h.mpr ⟨0, by decide⟩
    simp [UpdateValidatorListBalance.Validate,
      NewUpdateValidatorListBalanceInstructionBuilder] at hi

/-! ## The signer check of SetFee -/

/-- Claim C3, as amended. For every `SetFee` value whose `Fee` is set and whose account
slots are all non-nil: if the signer list is empty, or its first entry `Signers[0]`
(the entry `SetManager` fills together with `Accounts[1]`) is non-nil with the
`IsSigner` flag false, then `Validate` fails with
`accounts.Manager should be a signer`. -/
theorem SetFee.validate_missing_signature {F : Type} (s : StakePool.SetFee F)
    (hFee : s.Fee ≠ none) (hAccounts : ∀ k : Nat, s.Accounts[k]? ≠ some none)
    (hSigner : s.Signers = [] ∨
      ∃ signer, s.Signers[0]? = some (some signer) ∧ signer.IsSigner = false) :
    s.Validate = .returned (some .managerShouldBeSigner) := by
  obtain ⟨fee, hfee⟩ := Option.ne_none_iff_exists'.mp hFee
  have hscan := (rangeNilCheck_zero Error.accountsNotSet s.Accounts).2.2 hAccounts
  simp only [SetFee.Validate, hfee, hscan]
  rcases hSigner with h | ⟨signer, h1, h2⟩
  · simp [h]
  · rcases hs : s.Signers with _ | ⟨first, rest⟩
    · simp [hs] at h1
    · simp only [hs, List.getElem?_cons_zero, Option.some.injEq] at h1
      subst h1
      simp [h2]

/-- Witness for claim C3 as amended: the fee is set, both account slots are filled and
`Signers[0]` holds the manager without the signer flag. -/
theorem SetFee.validate_missing_signature_witness :
    SetFee.Validate (F := Nat)
      ⟨some 5, [some (Meta (PublicKey.ofByte 1)).WRITE, some (Meta (PublicKey.ofByte 2)).SIGNER],
        [some (Meta (PublicKey.ofByte 2))]⟩ =
      .returned (some .managerShouldBeSigner) :=
  SetFee.validate_missing_signature
    (⟨some 5, [some (Meta (PublicKey.ofByte 1)).WRITE, some (Meta (PublicKey.ofByte 2)).SIGNER],
        [some (Meta (PublicKey.ofByte 2))]⟩ : StakePool.SetFee Nat)
    (by simp)
    (by
      intro k
      rcases k with _ | _ | k <;> simp)
    (Or.inr ⟨Meta (PublicKey.ofByte 2), by simp, rfl⟩)

/-- Claim C3, as stated, fails: the fee is set, account slots 0 and 1 are non-nil and
the manager slot `Accounts[1]` has `IsSigner` false, yet `Validate` returns no error,
because the check reads `Signers[0]`, which here carries the flag. -/
theorem SetFee.validate_missing_signature_counterexample :
    ∃ s : StakePool.SetFee Nat,
      s = ⟨some 5, [some (Meta (PublicKey.ofByte 1)).WRITE, some (Meta (PublicKey.ofByte 2))],
        [some (Meta (PublicKey.ofByte 2)).SIGNER]⟩ ∧
      s.Fee ≠ none ∧ s.Accounts[0]? ≠ some none ∧ s.Accounts[1]? ≠ some none ∧
      (∃ manager, s.Accounts[1]? = some (some manager) ∧ manager.IsSigner = false) ∧
      s.Validate = .returned none ∧
      s.Validate ≠ .returned (some .managerShouldBeSigner) := by
  refine ⟨_, rfl, by simp, by simp, by simp, ⟨Meta (PublicKey.ofByte 2), by simp, rfl⟩,
    ?_, ?_⟩
  · rfl
  · simp [SetFee.Validate, rangeNilCheck, AccountMeta.SIGNER, Meta]

/-! ## Construction examples -/

/-- Claim C4. For all keys `P`, `S`, `N`: `NewSetStakerInstruction(P, S, N)` returns a
builder on which `ValidateAndBuild` returns no error and an instruction whose type
discriminant is `Instruction_SetStaker` and whose account list is exactly
`(P, writable, not signer)`, `(S, not writable, signer)`,
`(N, not writable, not signer)`. -/
theorem NewSetStakerInstruction_validateAndBuild (codes : InstructionCodes)
    (P S N : PublicKey) :
    ∃ inst ins, NewSetStakerInstruction P S N = .returned inst ∧
      inst.ValidateAndBuild codes = (some ins, none) ∧
      ins.TypeID = TypeIDFromUint8 codes.Instruction_SetStaker ∧
      ins.TypeID.Uint8 = codes.Instruction_SetStaker ∧
      ins.Impl.AccountMetaSlice =
        [some { PublicKey := P, IsWritable := true, IsSigner := false },
         some { PublicKey := S, IsWritable := false, IsSigner := true },
         some { PublicKey := N, IsWritable := false, IsSigner := false }] ∧
      ins.Impl.AccountMetaSlice.length = 3 :=
  ⟨_, _, rfl, rfl, rfl, rfl, rfl, rfl⟩

/-- Claim C5. For all keys `p`, `m`, `n`: on the builder obtained from
`NewSetManagerInstructionBuilder()` by `SetStakePool(p)`, `SetManager(m)` and
`SetNewManager(n)` (in any order) without `SetNewManagerFeeAccount`, `Validate`
returns the error `ins.AccountMetaSlice[3] is not set`, and `ValidateAndBuild` returns
that error and no instruction. -/
theorem SetManager.validate_without_fee_account (codes : InstructionCodes)
    (p m n : PublicKey) :
    ∃ inst : StakePool.SetManager,
      ((NewSetManagerInstructionBuilder.SetStakePool p).bind fun i =>
        (i.SetManager m).bind fun i => i.SetNewManager n) = .returned inst ∧
      ((NewSetManagerInstructionBuilder.SetStakePool p).bind fun i =>
        (i.SetNewManager n).bind fun i => i.SetManager m) = .returned inst ∧
      ((NewSetManagerInstructionBuilder.SetManager m).bind fun i =>
        (i.SetStakePool p).bind fun i => i.SetNewManager n) = .returned inst ∧
      ((NewSetManagerInstructionBuilder.SetManager m).bind fun i =>
        (i.SetNewManager n).bind fun i => i.SetStakePool p) = .returned inst ∧
      ((NewSetManagerInstructionBuilder.SetNewManager n).bind fun i =>
        (i.SetStakePool p).bind fun i => i.SetManager m) = .returned inst ∧
      ((NewSetManagerInstructionBuilder.SetNewManager n).bind fun i =>
        (i.SetManager m).bind fun i => i.SetStakePool p) = .returned inst ∧
      inst.Validate = some (.insAccountMetaSliceNotSet 3) ∧
      (Error.insAccountMetaSliceNotSet 3).message = "ins.AccountMetaSlice[3] is not set" ∧
      inst.ValidateAndBuild codes = (none, some (.insAccountMetaSliceNotSet 3)) :=
  ⟨_, rfl, rfl, rfl, rfl, rfl, rfl, rfl, by decide, rfl⟩

/-- Claim C6. For all keys `p`, `m`, `n`, `f`: the account list of
`NewSetManagerInstruction(p, m, n, f)` has exactly four entries, in order
`(p, writable, not signer)`, `(m, not writable, signer)`, `(n, not writable, signer)`,
`(f, not writable, not signer)`, and `Validate` on it succeeds. -/
theorem NewSetManagerInstruction_accounts (p m n f : PublicKey) :
    ∃ inst : StakePool.SetManager, NewSetManagerInstruction p m n f = .returned inst ∧
      inst.AccountMetaSlice =
        [some { PublicKey := p, IsWritable := true, IsSigner := false },
         some { PublicKey := m, IsWritable := false, IsSigner := true },
         some { PublicKey := n, IsWritable := false, IsSigner := true },
         some { PublicKey := f, IsWritable := false, IsSigner := false }] ∧
      inst.AccountMetaSlice.length = 4 ∧
      inst.Validate = none :=
  ⟨_, rfl, rfl, rfl, rfl⟩

/-- Claim C7. For every fee (nil or not) and all keys `p`, `m`:
`NewSetFeeInstruction(fee, p, m)` has account list exactly
`[(p, writable, not signer), (m, not writable, signer)]` and signer list exactly
`[(m, not writable, signer)]`, `GetFee` returns `fee`, and `Validate` on it returns
without a fault and succeeds if and only if `fee` is non-nil. -/
theorem NewSetFeeInstruction_fields {F : Type} (fee : Option F) (p m : PublicKey) :
    ∃ s : StakePool.SetFee F, NewSetFeeInstruction fee p m = .returned s ∧
      s.Accounts =
        [some { PublicKey := p, IsWritable := true, IsSigner := false },
         some { PublicKey := m, IsWritable := false, IsSigner := true }] ∧
      s.Signers = [some { PublicKey := m, IsWritable := false, IsSigner := true }] ∧
      s.GetFee = fee ∧
      (∃ r, s.Validate = .returned r) ∧
      (s.Validate = .returned none ↔ fee ≠ none) := by
  refine ⟨_, rfl, rfl, rfl, rfl, ?_, ?_⟩
  · cases fee
    · exact ⟨_, rfl⟩
    · exact ⟨_, rfl⟩
  · cases fee with
    | none =>
      constructor
      · intro h
        cases h
      · intro h
        exact absurd rfl h
    | some v =>
      constructor
      · intro _ h
        cases h
      · intro _
        rfl

/-! ## ValidateAndBuild against Validate and Build -/

/-- The shape shared by the variants whose `Validate` cannot fault: the pair returned
is `(nil, err)` exactly when validation returns `err`, and the built instruction with
no error when validation returns nil. -/
theorem validateAndBuild_shape {V : Type} (validate : Option Error) (build : Instruction V)
    (result : Option (Instruction V) × Option Error)
    (h : result = match validate with
      | some err => (none, some err)
      | none => (some build, none)) :
    (∀ err, result = (none, some err) ↔ validate = some err) ∧
    (validate = none ↔ result = (some build, none)) := by
  subst h
  cases validate with
  | none => simp
  | some e => simp

/-- Claim C8. For each of `SetManager`, `SetStaker`, `SetFee` and
`UpdateValidatorListBalance` and every builder state: `ValidateAndBuild` returns
`(nil, err)` exactly when `Validate` returns the error `err`, and returns the
instruction of `Build` (the type discriminant of the variant wrapping the unchanged
builder) with no error exactly when `Validate` returns nil. For `SetFee`, whose
`Validate` can stop on a nil `Signers[0]`, `ValidateAndBuild` stops exactly then. -/
theorem validateAndBuild_refines_validate_then_build {F A : Type} (codes : InstructionCodes)
    (m : SetManager) (k : SetStaker) (s : SetFee F) (u : UpdateValidatorListBalance A) :
    ((∀ err, m.ValidateAndBuild codes = (none, some err) ↔ m.Validate = some err) ∧
      (m.Validate = none ↔
        m.ValidateAndBuild codes =
          (some ⟨TypeIDFromUint8 codes.Instruction_SetManager, m⟩, none)) ∧
      m.Build codes = ⟨TypeIDFromUint8 codes.Instruction_SetManager, m⟩) ∧
    ((∀ err, k.ValidateAndBuild codes = (none, some err) ↔ k.Validate = some err) ∧
      (k.Validate = none ↔
        k.ValidateAndBuild codes =
          (some ⟨TypeIDFromUint8 codes.Instruction_SetStaker, k⟩, none)) ∧
      k.Build codes = ⟨TypeIDFromUint8 codes.Instruction_SetStaker, k⟩) ∧
    ((∀ err, s.ValidateAndBuild codes = .returned (none, some err) ↔
        s.Validate = .returned (some err)) ∧
      (s.Validate = .returned none ↔
        s.ValidateAndBuild codes =
          .returned (some ⟨TypeIDFromUint8 codes.Instruction_SetFee, s⟩, none)) ∧
      (s.Validate = .fault ↔ s.ValidateAndBuild codes = .fault) ∧
      s.Build codes = ⟨TypeIDFromUint8 codes.Instruction_SetFee, s⟩) ∧
    ((∀ err, u.ValidateAndBuild codes = (none, some err) ↔ u.Validate = some err) ∧
      (u.Validate = none ↔
        u.ValidateAndBuild codes =
          (some ⟨TypeIDFromUint8 codes.Instruction_UpdateValidatorListBalance, u⟩, none)) ∧
      u.Build codes = ⟨TypeIDFromUint8 codes.Instruction_UpdateValidatorListBalance, u⟩) := by
  refine ⟨?_, ?_, ?_, ?_⟩
  · obtain ⟨h1, h2⟩ := validateAndBuild_shape m.Validate (m.Build codes)
      (m.ValidateAndBuild codes) rfl
    exact ⟨h1, h2, rfl⟩
  · obtain ⟨h1, h2⟩ := validateAndBuild_shape k.Validate (k.Build codes)
      (k.ValidateAndBuild codes) rfl
    exact ⟨h1, h2, rfl⟩
  · simp only [SetFee.ValidateAndBuild, SetFee.Build]
    rcases hv : s.Validate with (_ | e) | _ <;> simp [Outcome.bind]
  · obtain ⟨h1, h2⟩ := validateAndBuild_shape u.Validate (u.Build codes)
      (u.ValidateAndBuild codes) rfl
    exact ⟨h1, h2, rfl⟩

/-! ## The sample codec meets the codec assumptions -/

theorem sampleFlag_ne_zero (b : Bool) : (sampleFlag b != 0) = b := by
  cases b <;> decide

theorem sampleReadAccount_bytes (account : AccountMeta) (rest : List Byte) :
    sampleReadAccount (sampleAccountBytes account ++ rest) = some (account, rest) := by
  obtain ⟨⟨key, hkey⟩, w, g⟩ := account
  have htake : (sampleAccountBytes ⟨⟨key, hkey⟩, w, g⟩ ++ rest).take 32 = key := by
    simp only [sampleAccountBytes, List.append_assoc]
    exact List.take_left' hkey
  have hdrop : (sampleAccountBytes ⟨⟨key, hkey⟩, w, g⟩ ++ rest).drop 32 =
      sampleFlag w :: sampleFlag g :: rest := by
    simp only [sampleAccountBytes, List.append_assoc]
    rw [List.drop_left' hkey]
    rfl
  have hlen : ((sampleAccountBytes ⟨⟨key, hkey⟩, w, g⟩ ++ rest).take 32).length = 32 := by
    rw [htake]
    exact hkey
  unfold sampleReadAccount
  rw [dif_pos hlen]
  simp only [hdrop, htake, sampleFlag_ne_zero]

theorem sampleCodec_roundTripsFee : sampleCodec.RoundTripsFee := by
  intro fee encoder
  exact ⟨[fee], rfl, fun _ _ => rfl⟩

theorem sampleCodec_roundTripsAccount : sampleCodec.RoundTripsAccount := by
  intro account encoder
  refine ⟨sampleAccountBytes account, rfl, fun target rest => ?_⟩
  simp only [sampleCodec, sampleReadAccount_bytes]

theorem sampleCodec_writesAccounts : sampleCodec.WritesAccounts := by
  intro account encoder
  refine ⟨sampleAccountBytes account, ?_, rfl⟩
  simp [sampleAccountBytes]

/-! ## What MarshalWithEncoder writes -/

/-- With the fee set, `SetFee.MarshalWithEncoder` continues with the account loop on
the encoder the fee was written to. -/
theorem SetFee.marshal_of_fee {F A : Type} (codec : Codec F A) (s : StakePool.SetFee F)
    (fee : F) (encoder encoder1 : Encoder) (hFee : s.Fee = some fee)
    (hEnc : codec.encodeFee fee encoder = .returned (none, encoder1)) :
    s.MarshalWithEncoder codec encoder = SetFee.encodeAccounts codec s.Accounts encoder1 := by
  simp [SetFee.MarshalWithEncoder, hFee, hEnc, Outcome.bind]

/-- For any codec that writes at least one byte per account reference, the bytes
`SetFee.MarshalWithEncoder` writes for `NewSetFeeInstruction(fee, p, m)` are the
encoding of the fee followed by a non-empty run of account bytes. -/
theorem SetFee.marshal_appends_accounts {F A : Type} (codec : Codec F A)
    (hW : codec.WritesAccounts) (fee : F) (p m : PublicKey) (encoder encoder1 : Encoder)
    (hEnc : codec.encodeFee fee encoder = .returned (none, encoder1)) :
    ∃ (s : StakePool.SetFee F) (encoder2 : Encoder) (extra : List Byte),
      NewSetFeeInstruction (some fee) p m = .returned s ∧
      s.MarshalWithEncoder codec encoder = .returned (none, encoder2) ∧
      extra ≠ [] ∧ encoder2.written = encoder1.written ++ extra := by
  obtain ⟨b1, hb1, h1⟩ := hW (Meta p).WRITE encoder1
  obtain ⟨b2, _, h2⟩ := hW (Meta m).SIGNER ⟨encoder1.written ++ b1⟩
  refine ⟨_, ⟨encoder1.written ++ b1 ++ b2⟩, b1 ++ b2, rfl, ?_, ?_, ?_⟩
  · rw [SetFee.marshal_of_fee codec _ fee encoder encoder1 rfl hEnc]
    show SetFee.encodeAccounts codec [some (Meta p).WRITE, some (Meta m).SIGNER] encoder1 = _
    simp [SetFee.encodeAccounts, h1, h2, Outcome.bind]
  · simp [hb1]
  · simp

/-- Claim C9, evaluated on the code. With the sample codec, the fee `7` and the keys
`1…1` and `2…2`: the fee alone encodes to the single byte `7`, yet
`SetFee.MarshalWithEncoder` writes 69 bytes, the fee followed by both account
references; and two `SetFee` values with the same fee and different account lists
write different bytes. `UpdateValidatorListBalance.MarshalWithEncoder` does write
exactly the encoding of `Args`. -/
theorem SetFee.marshal_writes_accounts_example :
    (∃ s : StakePool.SetFee Byte,
      NewSetFeeInstruction (some 7) (PublicKey.ofByte 1) (PublicKey.ofByte 2) = .returned s ∧
      sampleCodec.encodeFee 7 ⟨[]⟩ = .returned (none, ⟨[7]⟩) ∧
      s.MarshalWithEncoder sampleCodec ⟨[]⟩ =
        .returned (none, ⟨7 :: (sampleAccountBytes (Meta (PublicKey.ofByte 1)).WRITE ++
          sampleAccountBytes (Meta (PublicKey.ofByte 2)).SIGNER)⟩) ∧
      (7 :: (sampleAccountBytes (Meta (PublicKey.ofByte 1)).WRITE ++
          sampleAccountBytes (Meta (PublicKey.ofByte 2)).SIGNER)).length = 69) ∧
    (∃ s1 s2 : StakePool.SetFee Byte,
      NewSetFeeInstruction (some 7) (PublicKey.ofByte 1) (PublicKey.ofByte 2) = .returned s1 ∧
      NewSetFeeInstruction (some 7) (PublicKey.ofByte 3) (PublicKey.ofByte 2) = .returned s2 ∧
      s1.Fee = s2.Fee ∧
      s1.MarshalWithEncoder sampleCodec ⟨[]⟩ ≠ s2.MarshalWithEncoder sampleCodec ⟨[]⟩) ∧
    (∀ (u : UpdateValidatorListBalance Byte) (encoder : Encoder),
      u.MarshalWithEncoder sampleCodec encoder = sampleCodec.encodeArgs u.Args encoder) := by
  refine ⟨⟨_, rfl, rfl, rfl, rfl⟩, ⟨_, _, rfl, rfl, rfl, ?_⟩, fun _ _ => rfl⟩
  decide

/-- Witness that the premises of `SetFee.marshal_appends_accounts` are met by the sample
codec. -/
theorem SetFee.marshal_appends_accounts_witness :
    ∃ (s : StakePool.SetFee Byte) (encoder2 : Encoder) (extra : List Byte),
      NewSetFeeInstruction (some 7) (PublicKey.ofByte 1) (PublicKey.ofByte 2) = .returned s ∧
      s.MarshalWithEncoder sampleCodec ⟨[]⟩ = .returned (none, encoder2) ∧
      extra ≠ [] ∧ encoder2.written = (⟨[7]⟩ : Encoder).written ++ extra :=
  SetFee.marshal_appends_accounts sampleCodec sampleCodec_writesAccounts 7
    (PublicKey.ofByte 1) (PublicKey.ofByte 2) ⟨[]⟩ ⟨[7]⟩ rfl

/-! ## Round trip of the SetFee parameter -/

/-- On a `SetFee` whose `Fee` is nil, `UnmarshalWithDecoder` skips the fee: whatever it
returns, `Fee` is still nil. -/
theorem SetFee.unmarshal_fee_nil {F A : Type} (codec : Codec F A) (s : StakePool.SetFee F)
    (hFee : s.Fee = none) (decoder : Decoder)
    (out : Option Error × StakePool.SetFee F × Decoder)
    (h : s.UnmarshalWithDecoder codec decoder = .returned out) : out.2.1.Fee = none := by
  simp only [SetFee.UnmarshalWithDecoder, hFee, Outcome.bind] at h
  rcases hd : SetFee.decodeAccounts codec s.Accounts decoder with r | _
  · rw [hd] at h
    simp only [Outcome.returned.injEq] at h
    rw [← h]
  · rw [hd] at h
    cases h

/-- With the fee set, `SetFee.UnmarshalWithDecoder` decodes into it and continues with
the account loop on the decoder the fee was read from. -/
theorem SetFee.unmarshal_of_fee {F A : Type} (codec : Codec F A) (s : StakePool.SetFee F)
    (target fee : F) (decoder decoder1 : Decoder) (hFee : s.Fee = some target)
    (hDec : codec.decodeFee target decoder = .returned (none, fee, decoder1)) :
    s.UnmarshalWithDecoder codec decoder =
      (SetFee.decodeAccounts codec s.Accounts decoder1).bind fun r1 =>
        .returned (r1.1, { s with Fee := some fee, Accounts := r1.2.1 }, r1.2.2) := by
  simp [SetFee.UnmarshalWithDecoder, hFee, hDec, Outcome.bind]

/-- What does hold of the pair as written. Assuming the codec round-trips a fee and an
account reference: for every non-nil fee and keys `p`, `m`, `MarshalWithEncoder` on
`NewSetFeeInstruction(fee, p, m)` succeeds, and `UnmarshalWithDecoder` over the bytes
it wrote, called on a `SetFee` whose `Fee` is already set and whose two account slots
are filled, succeeds, consumes all the bytes and leaves `Fee` equal to `fee`. On a
freshly constructed `SetFee` the fee is nil, is skipped, and stays nil. -/
theorem SetFee.unmarshal_into_populated {F A : Type} (codec : Codec F A)
    (hRoundFee : codec.RoundTripsFee) (hRoundAccount : codec.RoundTripsAccount)
    (fee : F) (p m : PublicKey) (target : StakePool.SetFee F) (fee0 : F)
    (account0 account1 : AccountMeta) (hTargetFee : target.Fee = some fee0)
    (hTargetAccounts : target.Accounts = [some account0, some account1]) :
    (∃ (s : StakePool.SetFee F) (encoder : Encoder) (out : StakePool.SetFee F),
      NewSetFeeInstruction (some fee) p m = .returned s ∧
      s.MarshalWithEncoder codec ⟨[]⟩ = .returned (none, encoder) ∧
      target.UnmarshalWithDecoder codec ⟨encoder.written⟩ = .returned (none, out, ⟨[]⟩) ∧
      out.Fee = some fee) ∧
    (∀ (decoder : Decoder) (out : Option Error × StakePool.SetFee F × Decoder),
      (NewSetFeeInstructionBuilder F).UnmarshalWithDecoder codec decoder = .returned out →
        out.2.1.Fee = none) := by
  refine ⟨?_, fun decoder out h => SetFee.unmarshal_fee_nil codec _ rfl decoder out h⟩
  obtain ⟨bf, hEncFee, hDecFee⟩ := hRoundFee fee ⟨[]⟩
  obtain ⟨b1, hEnc1, hDec1⟩ := hRoundAccount (Meta p).WRITE ⟨[] ++ bf⟩
  obtain ⟨b2, hEnc2, hDec2⟩ := hRoundAccount (Meta m).SIGNER ⟨[] ++ bf ++ b1⟩
  refine ⟨_, ⟨[] ++ bf ++ b1 ++ b2⟩,
    { target with Fee := some fee, Accounts := [some (Meta p).WRITE, some (Meta m).SIGNER] },
    rfl, ?_, ?_, rfl⟩
  · rw [SetFee.marshal_of_fee codec _ fee ⟨[]⟩ ⟨[] ++ bf⟩ rfl hEncFee]
    show SetFee.encodeAccounts codec [some (Meta p).WRITE, some (Meta m).SIGNER] _ = _
    simp only [SetFee.encodeAccounts, hEnc1, hEnc2, Outcome.bind]
  · have hbytes : ([] ++ bf ++ b1 ++ b2 : List Byte) = bf ++ (b1 ++ (b2 ++ [])) := by simp
    have hrest : (b1 ++ (b2 ++ []) : List Byte) = b1 ++ (b2 ++ []) := rfl
    rw [hbytes, SetFee.unmarshal_of_fee codec target fee0 fee _ _ hTargetFee (hDecFee fee0 _),
      hTargetAccounts]
    simp only [SetFee.decodeAccounts, hDec1 account0 (b2 ++ []), Outcome.bind]
    have h2 := hDec2 account1 []
    simp only [List.append_nil] at h2 ⊢
    simp only [h2]

/-- The premises of `SetFee.unmarshal_into_populated` are met by the sample codec, the
fee `7` and a receiving `SetFee` that already holds the fee `0` and two filled account
slots. -/
theorem SetFee.unmarshal_into_populated_witness :
    (∃ (s : StakePool.SetFee Byte) (encoder : Encoder) (out : StakePool.SetFee Byte),
      NewSetFeeInstruction (some 7) (PublicKey.ofByte 1) (PublicKey.ofByte 2) = .returned s ∧
      s.MarshalWithEncoder sampleCodec ⟨[]⟩ = .returned (none, encoder) ∧
      SetFee.UnmarshalWithDecoder sampleCodec
        (⟨some 0, [some (Meta (PublicKey.ofByte 8)).WRITE, some (Meta (PublicKey.ofByte 9)).SIGNER],
          [some (Meta (PublicKey.ofByte 9)).SIGNER]⟩ : StakePool.SetFee Byte)
        ⟨encoder.written⟩ = .returned (none, out, ⟨[]⟩) ∧
      out.Fee = some 7) ∧
    (∀ (decoder : Decoder) (out : Option Error × StakePool.SetFee Byte × Decoder),
      (NewSetFeeInstructionBuilder Byte).UnmarshalWithDecoder sampleCodec decoder =
        .returned out → out.2.1.Fee = none) :=
  SetFee.unmarshal_into_populated sampleCodec sampleCodec_roundTripsFee
    sampleCodec_roundTripsAccount 7 (PublicKey.ofByte 1) (PublicKey.ofByte 2)
    ⟨some 0, [some (Meta (PublicKey.ofByte 8)).WRITE, some (Meta (PublicKey.ofByte 9)).SIGNER],
      [some (Meta (PublicKey.ofByte 9)).SIGNER]⟩
    0 (Meta (PublicKey.ofByte 8)).WRITE (Meta (PublicKey.ofByte 9)).SIGNER rfl rfl

/-- Claim C10, evaluated on the code. The sample codec round-trips a fee, and
`MarshalWithEncoder` on `NewSetFeeInstruction(7, p, m)` succeeds; but
`UnmarshalWithDecoder` on the freshly constructed `SetFee` over the bytes written
never returns with `Fee` equal to `7`: the fresh `Fee` is nil, the guard skips it, and
whatever the call returns `Fee` is still nil. -/
theorem SetFee.unmarshal_fresh_builder_loses_fee :
    sampleCodec.RoundTripsFee ∧
    ∃ (s : StakePool.SetFee Byte) (encoder : Encoder),
      NewSetFeeInstruction (some 7) (PublicKey.ofByte 1) (PublicKey.ofByte 2) = .returned s ∧
      s.MarshalWithEncoder sampleCodec ⟨[]⟩ = .returned (none, encoder) ∧
      (∀ (out : Option Error × StakePool.SetFee Byte × Decoder),
        (NewSetFeeInstructionBuilder Byte).UnmarshalWithDecoder sampleCodec
          ⟨encoder.written⟩ = .returned out → out.2.1.Fee = none) ∧
      ¬ ∃ (out : StakePool.SetFee Byte) (decoder : Decoder),
        (NewSetFeeInstructionBuilder Byte).UnmarshalWithDecoder sampleCodec
          ⟨encoder.written⟩ = .returned (none, out, decoder) ∧ out.Fee = some 7 := by
  refine ⟨sampleCodec_roundTripsFee, _, _, rfl, rfl, ?_, ?_⟩
  · intro out h
    exact SetFee.unmarshal_fee_nil sampleCodec _ rfl _ out h
  · rintro ⟨out, decoder, h, hfee⟩
    have h0 := SetFee.unmarshal_fee_nil sampleCodec _ rfl _ _ h
    rw [hfee] at h0
    cases h0

/-! ## What UnmarshalWithDecoder reads -/

/-- Whatever `SetFee.UnmarshalWithDecoder` returns, the signer list is the one it
started with. -/
theorem SetFee.unmarshal_signers {F A : Type} (codec : Codec F A) (s : StakePool.SetFee F)
    (decoder : Decoder) (out : Option Error × StakePool.SetFee F × Decoder)
    (h : s.UnmarshalWithDecoder codec decoder = .returned out) :
    out.2.1.Signers = s.Signers := by
  unfold SetFee.UnmarshalWithDecoder at h
  cases hfee : s.Fee with
  | none =>
    simp only [hfee, Outcome.bind] at h
    rcases hd : SetFee.decodeAccounts codec s.Accounts decoder with r | _
    · rw [hd] at h
      simp only [Outcome.returned.injEq] at h
      rw [← h]
    · rw [hd] at h
      cases h
  | some fee =>
    simp only [hfee] at h
    rcases hf : codec.decodeFee fee decoder with ⟨e, fee1, decoder1⟩ | _
    · rw [hf] at h
      cases e with
      | some err =>
        simp only [Outcome.bind, Outcome.returned.injEq] at h
        rw [← h]
      | none =>
        simp only [Outcome.bind] at h
        rcases hd : SetFee.decodeAccounts codec s.Accounts decoder1 with r | _
        · rw [hd] at h
          simp only [Outcome.returned.injEq] at h
          rw [← h]
        · rw [hd] at h
          cases h
    · rw [hf] at h
      cases h

/-- Claim C11, evaluated on the code. With the sample codec, a `SetFee` that holds the
fee `0`, the accounts `8…8` and `9…9` and the signer `9…9`, and an input made of the
byte `7` followed by the encodings of the references `1…1` and `2…2`:
`UnmarshalWithDecoder` succeeds and consumes all 69 bytes, although the fee alone
takes one; afterwards `Accounts` holds the references `1…1` and `2…2`, not the ones it
held before. Only the signer list is left as it was. -/
theorem SetFee.unmarshal_rewrites_accounts_example :
    ∃ out : StakePool.SetFee Byte,
      SetFee.UnmarshalWithDecoder sampleCodec
        (⟨some 0, [some (Meta (PublicKey.ofByte 8)).WRITE, some (Meta (PublicKey.ofByte 9)).SIGNER],
          [some (Meta (PublicKey.ofByte 9)).SIGNER]⟩ : StakePool.SetFee Byte)
        ⟨7 :: (sampleAccountBytes (Meta (PublicKey.ofByte 1)).WRITE ++
          sampleAccountBytes (Meta (PublicKey.ofByte 2)).SIGNER)⟩ =
        .returned (none, out, ⟨[]⟩) ∧
      sampleCodec.decodeFee 0
        ⟨7 :: (sampleAccountBytes (Meta (PublicKey.ofByte 1)).WRITE ++
          sampleAccountBytes (Meta (PublicKey.ofByte 2)).SIGNER)⟩ =
        .returned (none, 7, ⟨sampleAccountBytes (Meta (PublicKey.ofByte 1)).WRITE ++
          sampleAccountBytes (Meta (PublicKey.ofByte 2)).SIGNER⟩) ∧
      (sampleAccountBytes (Meta (PublicKey.ofByte 1)).WRITE ++
          sampleAccountBytes (Meta (PublicKey.ofByte 2)).SIGNER).length = 68 ∧
      out.Fee = some 7 ∧
      out.Accounts =
        [some (Meta (PublicKey.ofByte 1)).WRITE, some (Meta (PublicKey.ofByte 2)).SIGNER] ∧
      out.Accounts ≠
        [some (Meta (PublicKey.ofByte 8)).WRITE, some (Meta (PublicKey.ofByte 9)).SIGNER] ∧
      out.Signers = [some (Meta (PublicKey.ofByte 9)).SIGNER] := by
  refine ⟨⟨some 7,
    [some (Meta (PublicKey.ofByte 1)).WRITE, some (Meta (PublicKey.ofByte 2)).SIGNER],
    [some (Meta (PublicKey.ofByte 9)).SIGNER]⟩, ?_, rfl, rfl, rfl, rfl, by decide, rfl⟩
  rfl

/-! ## The missing-parameter check -/

/-- An error of the slot scan is one built by `mk`. -/
theorem rangeNilCheck_some_eq_mk (mk : Nat → Error) (slots : AccountMetaSlice) (i : Nat)
    (e : Error) (h : rangeNilCheck mk i slots = some e) : ∃ k, e = mk k := by
  rcases rangeNilCheck_cases mk slots i with ⟨h1, _⟩ | ⟨k, h1, _, _⟩
  · rw [h1] at h
    cases h
  · rw [h1] at h
    cases h
    exact ⟨_, rfl⟩

/-- Claim C12. `SetFee.Validate` fails with `fee is not set` if and only if `Fee` is
nil, and `UpdateValidatorListBalance.Validate` fails with `Args parameter is not set`
if and only if `Args` is nil, whatever the account slots hold; in particular the
freshly constructed builders, whose parameter is unset and whose slots are all nil,
report the missing parameter and not a missing account. -/
theorem validate_missing_parameter {F A : Type} (s : SetFee F)
    (u : UpdateValidatorListBalance A) :
    (s.Validate = .returned (some .feeNotSet) ↔ s.Fee = none) ∧
    (u.Validate = some .argsNotSet ↔ u.Args = none) ∧
    (NewSetFeeInstructionBuilder F).Validate = .returned (some .feeNotSet) ∧
    (NewUpdateValidatorListBalanceInstructionBuilder A).Validate = some .argsNotSet ∧
    Error.feeNotSet.message = "fee is not set" ∧
    Error.argsNotSet.message = "Args parameter is not set" := by
  refine ⟨⟨?_, ?_⟩, ⟨?_, ?_⟩, rfl, rfl, rfl, rfl⟩
  · intro h
    cases hfee : s.Fee with
    | none => rfl
    | some fee =>
      exfalso
      simp only [SetFee.Validate, hfee] at h
      cases hscan : rangeNilCheck Error.accountsNotSet 0 s.Accounts with
      | some err =>
        obtain ⟨k, hk⟩ := rangeNilCheck_some_eq_mk _ _ _ _ hscan
        rw [hscan, hk] at h
        cases h
      | none =>
        rw [hscan] at h
        rcases hs : s.Signers with _ | ⟨_ | signer, rest⟩
        · rw [hs] at h
          cases h
        · rw [hs] at h
          cases h
        · rw [hs] at h
          cases hb : signer.IsSigner <;> simp [hb] at h
  · intro h
    simp [SetFee.Validate, h]
  · intro h
    cases hargs : u.Args with
    | none => rfl
    | some args =>
      exfalso
      simp only [UpdateValidatorListBalance.Validate, hargs] at h
      obtain ⟨k, hk⟩ := rangeNilCheck_some_eq_mk _ _ _ _ h
      cases hk
  · intro h
    simp [UpdateValidatorListBalance.Validate, h]

/-! ## Setters on freshly constructed builders -/

/-- Claim C13, evaluated on the code. On the freshly constructed builders every setter
that writes a slot returns, with one exception:
`UpdateValidatorListBalance.SetValidatorStakeAccount` writes slot 7 of a list that has
seven slots (indices 0 to 6) and stops with an index out of range. -/
theorem setters_on_fresh_builders {F A : Type} (key : PublicKey) :
    ((∃ r, NewSetManagerInstructionBuilder.SetStakePool key = .returned r) ∧
      (∃ r, NewSetManagerInstructionBuilder.SetManager key = .returned r) ∧
      (∃ r, NewSetManagerInstructionBuilder.SetNewManager key = .returned r) ∧
      (∃ r, NewSetManagerInstructionBuilder.SetNewManagerFeeAccount key = .returned r)) ∧
    ((∃ r, NewSetStakerInstructionBuilder.SetStakePool key = .returned r) ∧
      (∃ r, NewSetStakerInstructionBuilder.SetCurrentStaker key = .returned r) ∧
      (∃ r, NewSetStakerInstructionBuilder.SetNewStaker key = .returned r)) ∧
    ((∃ r, (NewSetFeeInstructionBuilder F).SetStakePool key = .returned r) ∧
      (∃ r, (NewSetFeeInstructionBuilder F).SetManager key = .returned r)) ∧
    ((∃ r, (NewUpdateValidatorListBalanceInstructionBuilder A).SetStakePool key =
        .returned r) ∧
      (∃ r, (NewUpdateValidatorListBalanceInstructionBuilder A).SetWithdrawAuthority key =
        .returned r) ∧
      (∃ r, (NewUpdateValidatorListBalanceInstructionBuilder A).SetValidatorList key =
        .returned r) ∧
      (∃ r, (NewUpdateValidatorListBalanceInstructionBuilder A).SetReserveStake key =
        .returned r) ∧
      (∃ r, (NewUpdateValidatorListBalanceInstructionBuilder A).SetClock key = .returned r) ∧
      (∃ r, (NewUpdateValidatorListBalanceInstructionBuilder A).SetStakeHistory key =
        .returned r) ∧
      (∃ r, (NewUpdateValidatorListBalanceInstructionBuilder A).SetStakeProgram key =
        .returned r)) ∧
    (NewUpdateValidatorListBalanceInstructionBuilder A).Accounts.length = 7 ∧
    (NewUpdateValidatorListBalanceInstructionBuilder A).SetValidatorStakeAccount key = .fault :=
  ⟨⟨⟨_, rfl⟩, ⟨_, rfl⟩, ⟨_, rfl⟩, ⟨_, rfl⟩⟩, ⟨⟨_, rfl⟩, ⟨_, rfl⟩, ⟨_, rfl⟩⟩,
    ⟨⟨_, rfl⟩, ⟨_, rfl⟩⟩,
    ⟨⟨_, rfl⟩, ⟨_, rfl⟩, ⟨_, rfl⟩, ⟨_, rfl⟩, ⟨_, rfl⟩, ⟨_, rfl⟩, ⟨_, rfl⟩⟩, rfl, rfl⟩

/-! ## Address derivation -/

/-- Claim C14. For all inputs and any two receivers in any state,
`FindTransientStakeAccount` returns the same address, bump and error on both: the
result is the library routine applied to a seed list and the program id that depend
on the four arguments only. The same holds for `FindStakeProgramAddress` and its
three arguments. -/
theorem findAddress_independent_of_receiver {A : Type}
    (findProgramAddress : ProgramAddressFinder) (u1 u2 : UpdateValidatorListBalance A)
    (programID voteAccountAddress stakePoolAddress : PublicKey)
    (validatorTransitSuffix : Nat) :
    (u1.FindTransientStakeAccount findProgramAddress programID voteAccountAddress
        stakePoolAddress validatorTransitSuffix =
      u2.FindTransientStakeAccount findProgramAddress programID voteAccountAddress
        stakePoolAddress validatorTransitSuffix) ∧
    (u1.FindTransientStakeAccount findProgramAddress programID voteAccountAddress
        stakePoolAddress validatorTransitSuffix =
      findProgramAddress
        (UpdateValidatorListBalance.transientSeeds voteAccountAddress stakePoolAddress
          validatorTransitSuffix) programID) ∧
    (u1.FindStakeProgramAddress findProgramAddress programID voteAccountAddress
        stakePoolAddress =
      u2.FindStakeProgramAddress findProgramAddress programID voteAccountAddress
        stakePoolAddress) ∧
    (u1.FindStakeProgramAddress findProgramAddress programID voteAccountAddress
        stakePoolAddress =
      findProgramAddress
        (UpdateValidatorListBalance.stakeProgramSeeds voteAccountAddress stakePoolAddress)
        programID) :=
  ⟨rfl, rfl, rfl, rfl⟩

/-! ## The trailing accounts of UpdateValidatorListBalance -/

/-- The append loop of `SetValidatorAndTransientAccounts` adds one writable reference
per key, in order, after the slots already present, and changes nothing else. -/
theorem UpdateValidatorListBalance.setValidatorAndTransientAccounts_eq {A : Type}
    (u : UpdateValidatorListBalance A) (accounts : List PublicKey) :
    u.SetValidatorAndTransientAccounts accounts =
      { u with Accounts := u.Accounts ++ accounts.map fun acc => some (Meta acc).WRITE } := by
  unfold UpdateValidatorListBalance.SetValidatorAndTransientAccounts
  induction accounts generalizing u with
  | nil => simp
  | cons acc rest ih =>
    rw [List.foldl_cons, ih]
    simp

/-- Slot `n + i` of a list of `n` slots followed by one writable reference per key is
the reference of key `i`. -/
theorem getElem?_after_front (front : AccountMetaSlice) (accounts : List PublicKey) (i : Nat) :
    (front ++ accounts.map fun acc => some (Meta acc).WRITE)[front.length + i]? =
      accounts[i]?.map fun acc => some (Meta acc).WRITE := by
  rw [List.getElem?_append_right (Nat.le_add_right _ _), Nat.add_sub_cancel_left,
    List.getElem?_map]

/-- The read `slice[n + i].PublicKey` on a list of `n` slots followed by one writable
reference per key returns key `i` when there is one and is out of range otherwise. -/
theorem publicKeyAt_after_front (front : AccountMetaSlice) (accounts : List PublicKey)
    (i : Nat) :
    AccountMetaSlice.publicKeyAt
        (front ++ accounts.map fun acc => some (Meta acc).WRITE) (front.length + i) =
      match accounts[i]? with
      | some key => .returned key
      | none => .fault := by
  unfold AccountMetaSlice.publicKeyAt
  rw [getElem?_after_front]
  cases accounts[i]? <;> rfl

/-- Claim C15, evaluated on the code. After `SetValidatorAndTransientAccounts` with the
keys `1…1` and `2…2` on a freshly constructed builder, slots 7 and 8 hold these keys
with the writable flag set (and the signer flag clear); for every key list, every
reference found in a slot `7 + i` is writable. -/
theorem UpdateValidatorListBalance.trailing_accounts_writable_example :
    ((NewUpdateValidatorListBalanceInstructionBuilder Nat).SetValidatorAndTransientAccounts
        [PublicKey.ofByte 1, PublicKey.ofByte 2]).Accounts[7]? =
      some (some { PublicKey := PublicKey.ofByte 1, IsWritable := true, IsSigner := false }) ∧
    ((NewUpdateValidatorListBalanceInstructionBuilder Nat).SetValidatorAndTransientAccounts
        [PublicKey.ofByte 1, PublicKey.ofByte 2]).Accounts[8]? =
      some (some { PublicKey := PublicKey.ofByte 2, IsWritable := true, IsSigner := false }) ∧
    (∀ (accs : List PublicKey) (i : Nat) (account : AccountMeta),
      ((NewUpdateValidatorListBalanceInstructionBuilder Nat).SetValidatorAndTransientAccounts
          accs).Accounts[7 + i]? = some (some account) →
        account.IsWritable = true ∧ account.IsSigner = false) := by
  refine ⟨rfl, rfl, ?_⟩
  intro accs i account h
  rw [UpdateValidatorListBalance.setValidatorAndTransientAccounts_eq] at h
  have h7 := getElem?_after_front (AccountMetaSlice.make 7) accs i
  simp only [AccountMetaSlice.make, List.length_replicate] at h7
  simp only [NewUpdateValidatorListBalanceInstructionBuilder, AccountMetaSlice.make] at h
  rw [h7] at h
  cases hk : accs[i]? with
  | none => simp [hk] at h
  | some key =>
    simp only [hk, Option.map_some', Option.some.injEq] at h
    subst h
    exact ⟨rfl, rfl⟩

/-- What `NewUpdateValidatorListBalanceInstruction` returns: the seven fixed slots
followed by one writable reference per key of the list, with the arguments set. -/
theorem NewUpdateValidatorListBalanceInstruction_eq {A : Type} (args : A)
    (stakePool withdrawAuthority validatorList reserveStake clock stakeHistory
      stakeProgram : PublicKey)
    (accs : List PublicKey) (transientStakeAccount : PublicKey) :
    NewUpdateValidatorListBalanceInstruction args stakePool withdrawAuthority validatorList
        reserveStake clock stakeHistory stakeProgram accs transientStakeAccount =
      .returned
        { Args := some args,
          Accounts :=
            [some (Meta stakePool), some (Meta withdrawAuthority),
              some (Meta validatorList).WRITE, some (Meta reserveStake).WRITE,
              some (Meta clock), some (Meta stakeHistory), some (Meta stakeProgram)] ++
            accs.map fun acc => some (Meta acc).WRITE,
          Signers := [none] } := by
  show Outcome.returned
      (UpdateValidatorListBalance.SetValidatorAndTransientAccounts
        { Args := some args,
          Accounts :=
            [some (Meta stakePool), some (Meta withdrawAuthority),
              some (Meta validatorList).WRITE, some (Meta reserveStake).WRITE,
              some (Meta clock), some (Meta stakeHistory), some (Meta stakeProgram)],
          Signers := [none] } accs) = _
  rw [UpdateValidatorListBalance.setValidatorAndTransientAccounts_eq]

/-- Claim C16. For all arguments and every list `accs` of keys, the account list of
`NewUpdateValidatorListBalanceInstruction` has length `7 + len(accs)`; slots 0 to 6
are, in order, `stakePool`, `withdrawAuthority`, `validatorList` (writable),
`reserveStake` (writable), `clock`, `stakeHistory`, `stakeProgram`, the others plain
and none a signer; slot `7 + i` holds the key `accs[i]` for every `i < len(accs)`; and
`Validate` on the result succeeds. -/
theorem NewUpdateValidatorListBalanceInstruction_accounts {A : Type} (args : A)
    (stakePool withdrawAuthority validatorList reserveStake clock stakeHistory
      stakeProgram : PublicKey)
    (accs : List PublicKey) (transientStakeAccount : PublicKey) :
    ∃ u : UpdateValidatorListBalance A,
      NewUpdateValidatorListBalanceInstruction args stakePool withdrawAuthority validatorList
        reserveStake clock stakeHistory stakeProgram accs transientStakeAccount =
        .returned u ∧
      u.Accounts.length = 7 + accs.length ∧
      u.Accounts.take 7 =
        [some { PublicKey := stakePool, IsWritable := false, IsSigner := false },
         some { PublicKey := withdrawAuthority, IsWritable := false, IsSigner := false },
         some { PublicKey := validatorList, IsWritable := true, IsSigner := false },
         some { PublicKey := reserveStake, IsWritable := true, IsSigner := false },
         some { PublicKey := clock, IsWritable := false, IsSigner := false },
         some { PublicKey := stakeHistory, IsWritable := false, IsSigner := false },
         some { PublicKey := stakeProgram, IsWritable := false, IsSigner := false }] ∧
      (∀ i : Nat, i < accs.length →
        ∃ account : AccountMeta, u.Accounts[7 + i]? = some (some account) ∧
          accs[i]? = some account.PublicKey) ∧
      u.Validate = none := by
  refine ⟨_, NewUpdateValidatorListBalanceInstruction_eq args stakePool withdrawAuthority
    validatorList reserveStake clock stakeHistory stakeProgram accs transientStakeAccount,
    ?_, ?_, ?_, ?_⟩
  · simp only [List.length_append, List.length_map, List.length_cons, List.length_nil]
  · exact List.take_left' rfl
  · intro i hi
    have h := getElem?_after_front
      [some (Meta stakePool), some (Meta withdrawAuthority),
        some (Meta validatorList).WRITE, some (Meta reserveStake).WRITE,
        some (Meta clock), some (Meta stakeHistory), some (Meta stakeProgram)] accs i
    refine ⟨(Meta accs[i]).WRITE, ?_, ?_⟩
    · rw [show (7 : Nat) =
        ([some (Meta stakePool), some (Meta withdrawAuthority),
          some (Meta validatorList).WRITE, some (Meta reserveStake).WRITE,
          some (Meta clock), some (Meta stakeHistory),
          some (Meta stakeProgram)] : AccountMetaSlice).length from rfl, h,
        List.getElem?_eq_getElem hi]
      rfl
    · rw [List.getElem?_eq_getElem hi]
      rfl
  · simp only [UpdateValidatorListBalance.Validate]
    apply (rangeNilCheck_zero Error.accountsNotSet _).2.2
    intro k hk
    have hmem := List.getElem?_mem hk
    simp [List.mem_append] at hmem

/-- On a freshly constructed builder extended by `SetValidatorAndTransientAccounts(accs)`,
the read of slot `7 + i` returns `accs[i]` when there is one and is out of range
otherwise. -/
theorem UpdateValidatorListBalance.publicKeyAt_trailing {A : Type} (accs : List PublicKey)
    (i : Nat) :
    ((NewUpdateValidatorListBalanceInstructionBuilder A).SetValidatorAndTransientAccounts
        accs).Accounts.publicKeyAt (7 + i) =
      match accs[i]? with
      | some key => .returned key
      | none => .fault := by
  rw [UpdateValidatorListBalance.setValidatorAndTransientAccounts_eq]
  exact publicKeyAt_after_front (AccountMetaSlice.make 7) accs i

/-- Claim C17. On a builder created by `NewUpdateValidatorListBalanceInstructionBuilder`
and extended only by `SetValidatorAndTransientAccounts(accs)`:
`GetValidatorStakeAccount` (slot 7) returns if and only if `len(accs) >= 1`, and then
returns `accs[0]`; `GetTransientStakeAccount` (slot 8) returns if and only if
`len(accs) >= 2`, and then returns `accs[1]`; otherwise the read is out of range. -/
theorem UpdateValidatorListBalance.trailing_getters {A : Type} (accs : List PublicKey) :
    (((∃ key, ((NewUpdateValidatorListBalanceInstructionBuilder A).SetValidatorAndTransientAccounts
          accs).GetValidatorStakeAccount = .returned key) ↔ 1 ≤ accs.length) ∧
      (∀ key, ((NewUpdateValidatorListBalanceInstructionBuilder A).SetValidatorAndTransientAccounts
          accs).GetValidatorStakeAccount = .returned key ↔ accs[0]? = some key) ∧
      (((NewUpdateValidatorListBalanceInstructionBuilder A).SetValidatorAndTransientAccounts
          accs).GetValidatorStakeAccount = .fault ↔ accs.length < 1)) ∧
    (((∃ key, ((NewUpdateValidatorListBalanceInstructionBuilder A).SetValidatorAndTransientAccounts
          accs).GetTransientStakeAccount = .returned key) ↔ 2 ≤ accs.length) ∧
      (∀ key, ((NewUpdateValidatorListBalanceInstructionBuilder A).SetValidatorAndTransientAccounts
          accs).GetTransientStakeAccount = .returned key ↔ accs[1]? = some key) ∧
      (((NewUpdateValidatorListBalanceInstructionBuilder A).SetValidatorAndTransientAccounts
          accs).GetTransientStakeAccount = .fault ↔ accs.length < 2)) := by
  have h7 := UpdateValidatorListBalance.publicKeyAt_trailing (A := A) accs 0
  have h8 := UpdateValidatorListBalance.publicKeyAt_trailing (A := A) accs 1
  simp only [UpdateValidatorListBalance.GetValidatorStakeAccount,
    UpdateValidatorListBalance.GetTransientStakeAccount]
  rw [show (7 : Nat) + 0 = 7 from rfl] at h7
  rw [show (7 : Nat) + 1 = 8 from rfl] at h8
  rw [h7, h8]
  rcases accs with _ | ⟨a, _ | ⟨b, rest⟩⟩ <;> simp

/-! ## The seeds of the address derivation -/

/-- The eight seed bytes written by `PutUint32` into a zeroed slice. -/
theorem putUint32_zeroed (v : Nat) :
    LittleEndian.PutUint32 (List.replicate 8 0) v =
      [byteOf v, byteOf (v / 256), byteOf (v / 65536), byteOf (v / 16777216), 0, 0, 0, 0] := by
  simp [LittleEndian.PutUint32, List.replicate, Nat.shiftRight_eq_div_pow]

/-- The eight-byte little-endian encoding of a 32-bit value: four value bytes, then
four zero bytes. -/
theorem littleEndian64_of_lt (v : Nat) (hv : v < 2 ^ 32) :
    littleEndian64 v =
      [byteOf v, byteOf (v / 256), byteOf (v / 65536), byteOf (v / 16777216), 0, 0, 0, 0] := by
  have hrange : List.range 8 = [0, 1, 2, 3, 4, 5, 6, 7] := rfl
  have h4 : v / 256 ^ 4 = 0 := Nat.div_eq_of_lt (by norm_num at hv ⊢; exact hv)
  have h5 : v / 256 ^ 5 = 0 := Nat.div_eq_of_lt (by norm_num at hv ⊢; omega)
  have h6 : v / 256 ^ 6 = 0 := Nat.div_eq_of_lt (by norm_num at hv ⊢; omega)
  have h7 : v / 256 ^ 7 = 0 := Nat.div_eq_of_lt (by norm_num at hv ⊢; omega)
  simp only [littleEndian64, hrange, List.map_cons, List.map_nil, h4, h5, h6, h7]
  norm_num
  rfl

/-- A 32-bit value is determined by its four low bytes. -/
theorem eq_of_bytes_eq (v w : Nat) (hv : v < 2 ^ 32) (hw : w < 2 ^ 32)
    (h0 : byteOf v = byteOf w) (h1 : byteOf (v / 256) = byteOf (w / 256))
    (h2 : byteOf (v / 65536) = byteOf (w / 65536))
    (h3 : byteOf (v / 16777216) = byteOf (w / 16777216)) : v = w := by
  simp only [byteOf, Fin.mk.injEq] at h0 h1 h2 h3
  norm_num at hv hw
  omega

/-- Claim C18. For every 32-bit suffix `s`, the seed list `FindTransientStakeAccount`
passes to the address derivation is exactly four seeds, in order: the ASCII bytes of
`transient`, the vote-account key bytes, the stake-pool key bytes, and the eight-byte
little-endian encoding of `s` zero-extended to 64 bits (bytes 0 to 3 are `s`
little-endian, bytes 4 to 7 are zero); distinct 32-bit suffixes give distinct seed
lists. `FindStakeProgramAddress` passes exactly the vote-account key bytes and the
stake-pool key bytes. -/
theorem UpdateValidatorListBalance.seeds_layout {A : Type}
    (findProgramAddress : ProgramAddressFinder) (u : UpdateValidatorListBalance A)
    (programID voteAccountAddress stakePoolAddress : PublicKey) (s : Nat)
    (hs : s < 2 ^ 32) :
    u.FindTransientStakeAccount findProgramAddress programID voteAccountAddress
        stakePoolAddress s =
      findProgramAddress
        [[116, 114, 97, 110, 115, 105, 101, 110, 116], voteAccountAddress.bytes,
          stakePoolAddress.bytes, littleEndian64 s] programID ∧
    asciiBytes "transient" = [116, 114, 97, 110, 115, 105, 101, 110, 116] ∧
    littleEndian64 s =
      [byteOf s, byteOf (s / 256), byteOf (s / 65536), byteOf (s / 16777216), 0, 0, 0, 0] ∧
    (∀ t : Nat, t < 2 ^ 32 →
      UpdateValidatorListBalance.transientSeeds voteAccountAddress stakePoolAddress s =
        UpdateValidatorListBalance.transientSeeds voteAccountAddress stakePoolAddress t →
      s = t) ∧
    u.FindStakeProgramAddress findProgramAddress programID voteAccountAddress
        stakePoolAddress =
      findProgramAddress [voteAccountAddress.bytes, stakePoolAddress.bytes] programID := by
  have hascii : asciiBytes "transient" = [116, 114, 97, 110, 115, 105, 101, 110, 116] := by
    decide
  refine ⟨?_, hascii, littleEndian64_of_lt s hs, ?_, rfl⟩
  · simp only [UpdateValidatorListBalance.FindTransientStakeAccount,
      UpdateValidatorListBalance.transientSeeds, hascii, putUint32_zeroed,
      littleEndian64_of_lt s hs]
  · intro t ht h
    simp only [UpdateValidatorListBalance.transientSeeds, putUint32_zeroed, List.cons.injEq,
      true_and, and_true] at h
    exact eq_of_bytes_eq s t hs ht h.1 h.2.1 h.2.2.1 h.2.2.2

/-- Witness for claim C18: the suffix `0x01020304`. -/
theorem UpdateValidatorListBalance.seeds_layout_witness :
    UpdateValidatorListBalance.FindTransientStakeAccount
        (fun seeds programID => (programID, seeds.length, none))
        (NewUpdateValidatorListBalanceInstructionBuilder Nat) (PublicKey.ofByte 1)
        (PublicKey.ofByte 2) (PublicKey.ofByte 3) 16909060 =
      (fun seeds programID => (programID, seeds.length, none))
        [[116, 114, 97, 110, 115, 105, 101, 110, 116], (PublicKey.ofByte 2).bytes,
          (PublicKey.ofByte 3).bytes, littleEndian64 16909060] (PublicKey.ofByte 1) ∧
    asciiBytes "transient" = [116, 114, 97, 110, 115, 105, 101, 110, 116] ∧
    littleEndian64 16909060 =
      [byteOf 16909060, byteOf (16909060 / 256), byteOf (16909060 / 65536),
        byteOf (16909060 / 16777216), 0, 0, 0, 0] ∧
    (∀ t : Nat, t < 2 ^ 32 →
      UpdateValidatorListBalance.transientSeeds (PublicKey.ofByte 2) (PublicKey.ofByte 3)
          16909060 =
        UpdateValidatorListBalance.transientSeeds (PublicKey.ofByte 2) (PublicKey.ofByte 3) t →
      16909060 = t) ∧
    UpdateValidatorListBalance.FindStakeProgramAddress
        (fun seeds programID => (programID, seeds.length, none))
        (NewUpdateValidatorListBalanceInstructionBuilder Nat) (PublicKey.ofByte 1)
        (PublicKey.ofByte 2) (PublicKey.ofByte 3) =
      (fun seeds programID => (programID, seeds.length, none))
        [(PublicKey.ofByte 2).bytes, (PublicKey.ofByte 3).bytes] (PublicKey.ofByte 1) :=
  UpdateValidatorListBalance.seeds_layout (fun seeds programID => (programID, seeds.length, none))
    (NewUpdateValidatorListBalanceInstructionBuilder Nat) (PublicKey.ofByte 1)
    (PublicKey.ofByte 2) (PublicKey.ofByte 3) 16909060 (by norm_num)

/-! ## The invariant of the SetFee builder -/

theorem SetFee.mirrored_builder (F : Type) : (NewSetFeeInstructionBuilder F).Mirrored :=
  ⟨none, none, rfl, rfl, Or.inl rfl⟩

/-- Every setter call returns on a state that satisfies the invariant, and keeps it. -/
theorem SetFeeCall.run_mirrored {F : Type} (s : StakePool.SetFee F) (call : SetFeeCall F)
    (h : s.Mirrored) : ∃ s1, call.run s = .returned s1 ∧ s1.Mirrored := by
  obtain ⟨slot0, slot1, hA, hS, hm⟩ := h
  cases call with
  | SetFee fee => exact ⟨_, rfl, slot0, slot1, hA, hS, hm⟩
  | SetStakePool stakePool =>
    refine ⟨{ s with Accounts := [some (Meta stakePool).WRITE, slot1] }, ?_,
      _, slot1, rfl, hS, hm⟩
    simp [SetFeeCall.run, SetFee.SetStakePool, hA, AccountMetaSlice.assign, Outcome.bind]
  | SetManager manager =>
    refine ⟨{ s with Accounts := [slot0, some (Meta manager).SIGNER],
                     Signers := [some (Meta manager).SIGNER] }, ?_,
      slot0, _, rfl, rfl, Or.inr ⟨manager, rfl⟩⟩
    simp [SetFeeCall.run, SetFee.SetManager, hA, hS, AccountMetaSlice.assign, Outcome.bind]

/-- Every sequence of setter calls returns on a state that satisfies the invariant, and
ends in one that does. -/
theorem SetFee.runCalls_mirrored {F : Type} (calls : List (SetFeeCall F))
    (s : StakePool.SetFee F) (h : s.Mirrored) :
    ∃ s1, s.runCalls calls = .returned s1 ∧ s1.Mirrored := by
  induction calls generalizing s with
  | nil => exact ⟨s, rfl, h⟩
  | cons call rest ih =>
    obtain ⟨s1, h1, hm1⟩ := SetFeeCall.run_mirrored s call h
    obtain ⟨s2, h2, hm2⟩ := ih s1 hm1
    exact ⟨s2, by simp [SetFee.runCalls, h1, Outcome.bind, h2], hm2⟩

/-- On a state that satisfies the invariant `Validate` returns, and what it returns is
not the missing-signature error. -/
theorem SetFee.validate_of_mirrored {F : Type} (s : StakePool.SetFee F) (h : s.Mirrored) :
    (∃ r, s.Validate = .returned r) ∧
    s.Validate ≠ .returned (some .managerShouldBeSigner) := by
  obtain ⟨slot0, slot1, hA, hS, hm⟩ := h
  cases hfee : s.Fee with
  | none => simp [SetFee.Validate, hfee]
  | some fee =>
    cases slot0 with
    | none => simp [SetFee.Validate, hfee, hA, rangeNilCheck]
    | some a0 =>
      rcases hm with h1 | ⟨manager, h1⟩
      · subst h1
        simp [SetFee.Validate, hfee, hA, rangeNilCheck]
      · subst h1
        simp [SetFee.Validate, hfee, hA, hS, rangeNilCheck, AccountMeta.SIGNER]

/-- Claim C19. In every state reached from `NewSetFeeInstructionBuilder()` by a sequence
of `SetFee`, `SetStakePool` and `SetManager` calls (every such sequence runs without a
fault): `Accounts` has length 2 and `Signers` has length 1; `Signers[0]` is nil exactly
when `Accounts[1]` is nil; when filled both hold the same key with `IsSigner` true;
`Validate` returns a result rather than faulting, and the result is never the
missing-signature error. -/
theorem SetFee.builder_invariant {F : Type} (calls : List (SetFeeCall F)) :
    ∃ s : StakePool.SetFee F, (NewSetFeeInstructionBuilder F).runCalls calls = .returned s ∧
      s.Accounts.length = 2 ∧ s.Signers.length = 1 ∧
      (s.Signers[0]? = some none ↔ s.Accounts[1]? = some none) ∧
      (∀ account signer : AccountMeta, s.Accounts[1]? = some (some account) →
        s.Signers[0]? = some (some signer) →
          account.PublicKey = signer.PublicKey ∧ account.IsSigner = true ∧
            signer.IsSigner = true) ∧
      (∃ r, s.Validate = .returned r) ∧
      s.Validate ≠ .returned (some .managerShouldBeSigner) := by
  obtain ⟨s, hrun, hm⟩ :=
    SetFee.runCalls_mirrored calls (NewSetFeeInstructionBuilder F) (SetFee.mirrored_builder F)
  obtain ⟨hret, hne⟩ := SetFee.validate_of_mirrored s hm
  obtain ⟨slot0, slot1, hA, hS, hmir⟩ := hm
  refine ⟨s, hrun, by simp [hA], by simp [hS], by simp [hA, hS], ?_, hret, hne⟩
  intro account signer h1 h0
  simp only [hA, hS, List.getElem?_cons_succ, List.getElem?_cons_zero, Option.some.injEq] at h1 h0
  rcases hmir with hnil | ⟨manager, hman⟩
  · rw [hnil] at h1
    cases h1
  · rw [hman] at h1 h0
    cases h1
    cases h0
    exact ⟨rfl, rfl, rfl⟩

/-! ## The unused argument of NewUpdateValidatorListBalanceInstruction -/

/-- Claim C20. The result of `NewUpdateValidatorListBalanceInstruction` does not depend
on its last argument `transientStakeAccount`: with all other arguments equal, any two
values of it give builders with equal `Args`, equal account lists and equal signer
lists, and a key appears in a slot only when it is one of the other arguments. -/
theorem NewUpdateValidatorListBalanceInstruction_ignores_transient {A : Type} (args : A)
    (stakePool withdrawAuthority validatorList reserveStake clock stakeHistory
      stakeProgram : PublicKey)
    (accs : List PublicKey) (t1 t2 : PublicKey) :
    NewUpdateValidatorListBalanceInstruction args stakePool withdrawAuthority validatorList
        reserveStake clock stakeHistory stakeProgram accs t1 =
      NewUpdateValidatorListBalanceInstruction args stakePool withdrawAuthority validatorList
        reserveStake clock stakeHistory stakeProgram accs t2 ∧
    ∃ u : UpdateValidatorListBalance A,
      NewUpdateValidatorListBalanceInstruction args stakePool withdrawAuthority validatorList
        reserveStake clock stakeHistory stakeProgram accs t1 = .returned u ∧
      NewUpdateValidatorListBalanceInstruction args stakePool withdrawAuthority validatorList
        reserveStake clock stakeHistory stakeProgram accs t2 = .returned u ∧
      ∀ (k : Nat) (account : AccountMeta), u.Accounts[k]? = some (some account) →
        account.PublicKey ∈
          [stakePool, withdrawAuthority, validatorList, reserveStake, clock, stakeHistory,
            stakeProgram] ++ accs := by
  refine ⟨rfl, _, NewUpdateValidatorListBalanceInstruction_eq args stakePool withdrawAuthority
    validatorList reserveStake clock stakeHistory stakeProgram accs t1,
    NewUpdateValidatorListBalanceInstruction_eq args stakePool withdrawAuthority
    validatorList reserveStake clock stakeHistory stakeProgram accs t2, ?_⟩
  intro k account h
  have hmem := List.getElem?_mem h
  simp only [List.mem_append, List.mem_cons, List.mem_map, Option.some.injEq,
    List.mem_singleton, List.not_mem_nil, or_false] at hmem
  simp only [List.mem_append, List.mem_cons, List.mem_singleton, List.not_mem_nil, or_false]
  rcases hmem with (h | h | h | h | h | h | h) | ⟨acc, hacc, h⟩
  all_goals first
    | (subst h; simp [Meta, AccountMeta.WRITE]; done)
    | (subst h; right; simpa [Meta, AccountMeta.WRITE] using hacc)

/-! ## Appending trailing accounts -/

/-- Claim C21. `SetValidatorAndTransientAccounts` appends rather than overwrites: for
every builder state with account list `L` and all key lists `a` and `b`, calling it
with `a` and then with `b` yields the account list `L ++ W(a) ++ W(b)` (`W` marks each
key writable), the same builder as one call with `a ++ b`; it never changes a slot
already present; and calling it twice with the same list grows the list by `len(a)`
each time, so it gives the result of one call only when the list is empty. -/
theorem UpdateValidatorListBalance.setValidatorAndTransientAccounts_appends {A : Type}
    (u : UpdateValidatorListBalance A) (a b : List PublicKey) :
    ((u.SetValidatorAndTransientAccounts a).SetValidatorAndTransientAccounts b).Accounts =
      u.Accounts ++ (a.map fun acc => some (Meta acc).WRITE) ++
        (b.map fun acc => some (Meta acc).WRITE) ∧
    (u.SetValidatorAndTransientAccounts a).SetValidatorAndTransientAccounts b =
      u.SetValidatorAndTransientAccounts (a ++ b) ∧
    (∀ k : Nat, k < u.Accounts.length →
      (u.SetValidatorAndTransientAccounts a).Accounts[k]? = u.Accounts[k]?) ∧
    (u.SetValidatorAndTransientAccounts a).Accounts.length = u.Accounts.length + a.length ∧
    ((u.SetValidatorAndTransientAccounts a).SetValidatorAndTransientAccounts a).Accounts.length =
      (u.SetValidatorAndTransientAccounts a).Accounts.length + a.length ∧
    ((u.SetValidatorAndTransientAccounts a).SetValidatorAndTransientAccounts a =
        u.SetValidatorAndTransientAccounts a ↔ a = []) := by
  have h1 := UpdateValidatorListBalance.setValidatorAndTransientAccounts_eq u a
  have h2 := UpdateValidatorListBalance.setValidatorAndTransientAccounts_eq
    (u.SetValidatorAndTransientAccounts a)
  have hlen : (u.SetValidatorAndTransientAccounts a).Accounts.length =
      u.Accounts.length + a.length := by
    rw [h1]
    simp only [List.length_append, List.length_map]
  have hlen2 : ((u.SetValidatorAndTransientAccounts a).SetValidatorAndTransientAccounts
      a).Accounts.length = (u.SetValidatorAndTransientAccounts a).Accounts.length + a.length := by
    rw [h2 a]
    simp only [List.length_append, List.length_map]
  refine ⟨?_, ?_, ?_, hlen, hlen2, ?_⟩
  · rw [h2 b, h1]
  · rw [h2 b, h1, UpdateValidatorListBalance.setValidatorAndTransientAccounts_eq u (a ++ b)]
    simp only [List.map_append, List.append_assoc]
  · intro k hk
    rw [h1]
    exact List.getElem?_append_left hk
  · constructor
    · intro h
      rw [h] at hlen2
      exact List.length_eq_zero.mp (by omega)
    · intro h
      subst h
      rfl

/-! ## The value of a FutureEpoch -/

/-- Claim C22. For every `FutureEpoch[T]` value `f`, `Value()` returns a reference to
`f.One` exactly when `f.Enum = 1`, a reference to `f.Two` exactly when `f.Enum = 2`,
and nil for `Enum = 0` and for every other tag value (3 and above); what a non-nil
result points to is the contents of the field the tag selects. -/
theorem FutureEpoch.value_selects_tagged_field {T : Type} (f : FutureEpoch T) :
    (f.Value = some .One ↔ f.Enum = 1) ∧
    (f.Value = some .Two ↔ f.Enum = 2) ∧
    (f.Value = none ↔ f.Enum = 0 ∨ 3 ≤ f.Enum) ∧
    (∀ field, f.Value = some field →
      (f.Enum = 1 ∧ field.load f = f.One) ∨ (f.Enum = 2 ∧ field.load f = f.Two)) := by
  obtain ⟨tag, _, one, two⟩ := f
  rcases tag with _ | _ | _ | tag
  · simp [FutureEpoch.Value]
  · simp [FutureEpoch.Value, FutureEpochField.load]
  · simp [FutureEpoch.Value, FutureEpochField.load]
  · simp [FutureEpoch.Value]

end StakePool
